import Mathlib

/-!
redis-go-2: a shallow embedding of `app/server.go`.

The server decodes a RESP array into a space-separated command line
(`parseCommand`), dispatches it against a global key/value map with optional
millisecond expiry (`processCommand`, `handleSetCommand`, `handleGetCommand`)
and formats replies as RESP (`formatRESPBulkString`, `formatRESPArray`).

Conventions of the embedding

* A Go `string` / `[]byte` is a list of bytes, `Str = List Nat` (every byte is
  a number below 256; the theorems never need that bound).
* A Go `map[string]T` is a partial function `Str → Option T`.
* The global `db` is passed in and returned; the global `config` and the
  reading of `time.Now().UnixMilli()` are passed in.  Each dispatch reads the
  clock at most once.
* A run-time panic (index or slice bound out of range) is `none`.
* `int` and `int64` are 64 bit wide (the platforms Go calls `amd64`/`arm64`);
  additions on `int64` wrap, see `wrap64`.
-/

namespace RedisGo

/-! ## Strings -/

/-- A Go string: a sequence of bytes. -/
abbrev Str := List Nat

/-- The bytes of a string literal (its UTF-8 encoding). -/
def bytes (s : String) : Str :=
  (s.toList.flatMap String.utf8EncodeChar).map UInt8.toNat

/-- The separator `" "`. -/
def SP : Str := [32]

/-- The separator `"\r\n"`. -/
def CRLF : Str := [13, 10]

/-- Prepends a byte to the first piece of a list of pieces. -/
def consHead (c : Nat) : List Str → List Str
  | [] => [[c]]
  | t :: ts => (c :: t) :: ts

/-- Worker of `Split`: `skip` counts the bytes of a separator occurrence that
are still to be passed over. -/
def splitFrom (sep : Str) : Nat → Str → List Str
  | _, [] => [[]]
  | skip + 1, _ :: cs => splitFrom sep skip cs
  | 0, c :: cs =>
    if sep.isPrefixOf (c :: cs) then [] :: splitFrom sep (sep.length - 1) cs
    else consHead c (splitFrom sep 0 cs)

/-- Go `strings.Split(s, sep)` for a non-empty separator: the pieces of `s`
between the leftmost, non-overlapping occurrences of `sep`.  The result is
never empty. -/
def Split (s sep : Str) : List Str := splitFrom sep 0 s

/-- Go `strings.Join(elems, sep)`. -/
def Join : List Str → Str → Str
  | [], _ => []
  | [a], _ => a
  | a :: b :: rest, sep => a ++ sep ++ Join (b :: rest) sep

/-- Go `strings.Trim(s, cutset)` for a cutset of ASCII bytes: drops the
leading and the trailing bytes of `s` that occur in `cutset`. -/
def Trim (s cutset : Str) : Str :=
  (s.dropWhile (fun c => decide (c ∈ cutset))).rdropWhile (fun c => decide (c ∈ cutset))

/-- Upper-cases one ASCII byte: `if 'a' <= c && c <= 'z' { c -= 'a' - 'A' }`. -/
def upperByte (c : Nat) : Nat := if 97 ≤ c ∧ c ≤ 122 then c - 32 else c

/-- Go `strings.ToUpper`.  A string of ASCII bytes only is upper-cased byte by
byte.  Any other string goes through `strings.Map(unicode.ToUpper, s)`, which
depends on the Unicode case tables of the Go runtime: that path is the
parameter `unicodeUpper`. -/
def ToUpper (unicodeUpper : Str → Str) (s : Str) : Str :=
  if s.all (fun c => decide (c < 128)) then s.map upperByte else unicodeUpper s

/-- Worker of `Itoa`: decimal digits of `n`, most significant first, pushed in
front of `acc`. -/
def digitsFrom : Nat → Nat → Str → Str
  | 0, _, acc => acc
  | fuel + 1, n, acc =>
    if n / 10 = 0 then (48 + n % 10) :: acc
    else digitsFrom fuel (n / 10) ((48 + n % 10) :: acc)

/-- Decimal rendering of a natural number (the verb `%d` on a length). -/
def natToDec (n : Nat) : Str := digitsFrom (n + 1) n []

/-- Go `strconv.Itoa`: decimal rendering of an integer. -/
def Itoa : Int → Str
  | Int.ofNat n => natToDec n
  | Int.negSucc n => 45 :: natToDec (n + 1)

/-- Reads a run of decimal digits; `none` when a byte is not a digit. -/
def parseDigits : Str → Nat → Option Nat
  | [], acc => some acc
  | c :: cs, acc => if 48 ≤ c ∧ c ≤ 57 then parseDigits cs (acc * 10 + (c - 48)) else none

/-- A decimal digit byte, `'0'` to `'9'`. -/
def isDigit (c : Nat) : Prop := 48 ≤ c ∧ c ≤ 57

/-- Largest `int64`, `1<<63 - 1`. -/
def maxInt64 : Int := 9223372036854775807

/-- Smallest `int64`, `-1<<63`. -/
def minInt64 : Int := -9223372036854775808

/-- Go `strconv.Atoi` on a 64-bit platform: an optional sign, then one or more
decimal digits, the value within the range of `int`.  `none` stands for a
non-nil error (syntax or range). -/
def Atoi (s : Str) : Option Int :=
  let neg : Bool := s.head? = some 45
  let body : Str := if s.head? = some 43 ∨ s.head? = some 45 then s.drop 1 else s
  if body = [] then none
  else
    match parseDigits body 0 with
    | none => none
    | some n =>
      if neg then (if (n : Int) ≤ 9223372036854775808 then some (-(n : Int)) else none)
      else (if (n : Int) ≤ 9223372036854775807 then some (n : Int) else none)

/-- Two's-complement wrap-around of an `int64` result. -/
def wrap64 (x : Int) : Int :=
  (x + 9223372036854775808) % 18446744073709551616 - 9223372036854775808

/-! ## RESP encoding: `formatRESPBulkString`, `formatRESPArray` -/

/-- Source: `fmt.Sprintf("$%d\r\n%s\r\n", len(s), s)`. -/
def formatRESPBulkString (s : Str) : Str :=
  [36] ++ natToDec s.length ++ CRLF ++ s ++ CRLF

/-- Source: `"*%d\r\n"` with the number of elements, then every element as a
bulk string, appended in order. -/
def formatRESPArray (elements : List Str) : Str :=
  elements.foldl (fun resp element => resp ++ formatRESPBulkString element)
    ([42] ++ natToDec elements.length ++ CRLF)

/-! ## RESP decoding: `parseCommand` -/

/-- The loop `for i, arg := range args[2:] { if i%2 == 0 { command += arg + " " } }`,
started at index `i` with the command built so far. -/
def parseLoop : Nat → List Str → Str → Str
  | _, [], command => command
  | i, arg :: rest, command =>
    parseLoop (i + 1) rest (if i % 2 = 0 then command ++ (arg ++ SP) else command)

/-- Source: `parseCommand`.  The result is `none` on a panic (`commandString[0]`
on an empty buffer, `args[2:]` on fewer than two lines), otherwise the pair
`(command, err)` where `err = none` is the nil error. -/
def parseCommand (encodedCommand : Str) : Option (Str × Option Str) :=
  match encodedCommand with
  | [] => none
  | c0 :: _ =>
    if c0 ≠ 42 then some ([], some (bytes "Invalid command"))
    else
      let args := Split encodedCommand CRLF
      if args.length < 2 then none
      else some (parseLoop 0 (args.drop 2) [], none)

/-! ## The keyspace: `KVExpiry`, `db`, `handleSetCommand`, `handleGetCommand` -/

/-- Source: `type KVExpiry struct { value string; expiry int64 }`; `expiry = 0`
marks an entry that never expires. -/
structure KVExpiry where
  value : Str
  expiry : Int
  deriving DecidableEq, Repr

/-- Source: `var db = make(map[string]KVExpiry)`. -/
abbrev DB := Str → Option KVExpiry

/-- The empty map. -/
def emptyDB : DB := fun _ => none

/-- Map assignment `db[key] = e`. -/
def DB.insert (db : DB) (key : Str) (e : KVExpiry) : DB :=
  fun k => if k = key then some e else db k

/-- Map deletion `delete(db, key)`. -/
def DB.erase (db : DB) (key : Str) : DB :=
  fun k => if k = key then none else db k

/-- Source: `handleSetCommand`, at clock reading `now`. -/
def handleSetCommand (now : Int) (db : DB) (key value : Str) (expiry : Int) : DB :=
  let expires : Int := if expiry ≠ 0 then wrap64 (now + expiry) else 0
  db.insert key { value := value, expiry := expires }

/-- Source: `handleGetCommand`, at clock reading `now`: the entry read (the zero
value when the key is absent), the flag `exists`, and the map afterwards. -/
def handleGetCommand (now : Int) (db : DB) (key : Str) : (KVExpiry × Bool) × DB :=
  match db key with
  | none => (({ value := [], expiry := 0 }, false), db)
  | some valueExp =>
    if valueExp.expiry ≠ 0 ∧ now > valueExp.expiry then ((valueExp, false), db.erase key)
    else ((valueExp, true), db)

/-! ## Configuration: `config`, `getConfig` -/

/-- Source: `var config = make(map[string]string)`. -/
abbrev Config := Str → Option Str

/-- Source: `getConfig`; a missing key reads as the empty string. -/
def getConfig (config : Config) (key : Str) : Str := (config key).getD []

/-! ## Dispatch: `processCommand` -/

/-- The command line `parseCommand` builds from a list of tokens: every token
followed by one space. -/
def commandLine (tokens : List Str) : Str := tokens.flatMap (fun t => t ++ SP)

/-- A well-formed token of a command line: non-empty and without a space. -/
def isToken (t : Str) : Prop := t ≠ [] ∧ 32 ∉ t

instance (t : Str) : Decidable (isToken t) := by
  unfold isToken
  infer_instance

/-- The first space-delimited word of a command line. -/
def firstWord (s : Str) : Str := s.takeWhile (fun c => c != 32)

/-- The words after the first one: the pieces, between spaces, of the text
behind the first space; no words when there is no space. -/
def restWords (s : Str) : List Str :=
  match s.dropWhile (fun c => c != 32) with
  | [] => []
  | _ :: t => Split t SP

/-- The second space-delimited word of a command line, when the line has a
space. -/
def secondWord (s : Str) : Option Str :=
  match s.dropWhile (fun c => c != 32) with
  | [] => none
  | _ :: t => some (firstWord t)

/-- The argument text `args` of `processCommand`: the words after the first,
joined by single spaces, with leading and trailing spaces trimmed. -/
def argsOf (s : Str) : Str := Trim (Join ((Split s SP).drop 1) SP) SP

/-- The entry of `key` is past its deadline at the clock reading `now`. -/
def expiredAt (now : Int) (db : DB) (key : Str) : Prop :=
  ∃ e, db key = some e ∧ e.expiry ≠ 0 ∧ e.expiry < now

/-- The reply `"-ERR unknown command\r\n"`. -/
def errUnknown : Str := bytes "-ERR unknown command\r\n"

/-- Source: `processCommand`, at clock reading `now` on the map `db`: the reply
and the map afterwards, or `none` on a panic (an index out of range).

The `switch` on the upper-cased first word is the chain of `if`s.  In the SET
case `store` is the tail `handleSetCommand(keyValue[0], keyValue[1], ...)`,
`response = "+OK\r\n"`, and each `some (errUnknown, db)` is an assignment of
the error reply followed by `break`.  `unicodeUpper` is the non-ASCII path of
`strings.ToUpper`, see `ToUpper`. -/
def processCommand (unicodeUpper : Str → Str) (config : Config) (now : Int) (db : DB)
    (commandString : Str) : Option (Str × DB) :=
  let parsedCommand := Split commandString SP
  match parsedCommand[0]? with
  | none => none
  | some word0 =>
    let command := ToUpper unicodeUpper word0
    let args := Trim (Join (parsedCommand.drop 1) SP) SP
    if command = bytes "PING" then some (bytes "+PONG\r\n", db)
    else if command = bytes "ECHO" then
      some ([36] ++ natToDec args.length ++ CRLF ++ args ++ CRLF, db)
    else if command = bytes "SET" then
      let keyValue := Split args SP
      let store : Int → Option (Str × DB) := fun expiresMilli =>
        match keyValue[0]?, keyValue[1]? with
        | some key, some value =>
          some (bytes "+OK\r\n", handleSetCommand now db key value expiresMilli)
        | _, _ => none
      if keyValue.length = 4 then
        match keyValue[3]?, keyValue[2]? with
        | some tok3, some tok2 =>
          match Atoi tok3 with
          | none => some (errUnknown, db)
          | some expiresMilli =>
            if ToUpper unicodeUpper tok2 ≠ bytes "PX" then some (errUnknown, db)
            else store expiresMilli
        | _, _ => none
      else store 0
    else if command = bytes "GET" then
      let r := handleGetCommand now db args
      if r.1.2 then
        some ([36] ++ natToDec r.1.1.value.length ++ CRLF ++ r.1.1.value ++ CRLF, r.2)
      else some (bytes "$-1\r\n", r.2)
    else if command = bytes "CONFIG" then
      match parsedCommand[1]? with
      | none => none
      | some word1 =>
        if ToUpper unicodeUpper word1 ≠ bytes "GET" then some (errUnknown, db)
        else
          match parsedCommand[2]? with
          | none => none
          | some key => some (formatRESPArray [key, getConfig config key], db)
    else some (errUnknown, db)

/-! ## Lemmas: splitting on spaces, joining, trimming -/

theorem splitFrom_ne_nil (sep : Str) : ∀ (s : Str) (skip : Nat), splitFrom sep skip s ≠ []
  | [], _ => by simp [splitFrom]
  | c :: cs, skip + 1 => by simpa [splitFrom] using splitFrom_ne_nil sep cs skip
  | c :: cs, 0 => by
    simp only [splitFrom]
    split
    · simp
    · have := splitFrom_ne_nil sep cs 0
      cases h : splitFrom sep 0 cs <;> simp_all [consHead]

theorem Split_SP_nil : Split [] SP = [[]] := rfl

theorem Split_SP_cons (c : Nat) (cs : Str) :
    Split (c :: cs) SP = if c = 32 then [] :: Split cs SP else consHead c (Split cs SP) := by
  by_cases h : c = 32
  · subst h; simp [Split, splitFrom, SP]
  · have h2 : ¬ (32 = c) := fun e => h e.symm
    simp [Split, splitFrom, SP, h, h2]

theorem Split_SP_token (w rest : Str) (hw : 32 ∉ w) :
    Split (w ++ 32 :: rest) SP = w :: Split rest SP := by
  induction w with
  | nil => simp [Split_SP_cons]
  | cons c w ih =>
    have hc : c ≠ 32 := fun e => hw (by simp [e])
    have hw2 : 32 ∉ w := fun e => hw (by simp [e])
    simp [Split_SP_cons, hc, ih hw2, consHead]

theorem Split_SP_single (w : Str) (hw : 32 ∉ w) : Split w SP = [w] := by
  induction w with
  | nil => rfl
  | cons c w ih =>
    have hc : c ≠ 32 := fun e => hw (by simp [e])
    have hw2 : 32 ∉ w := fun e => hw (by simp [e])
    simp [Split_SP_cons, hc, ih hw2, consHead]

theorem Split_commandLine (toks : List Str) (h : ∀ t ∈ toks, 32 ∉ t) :
    Split (commandLine toks) SP = toks ++ [[]] := by
  induction toks with
  | nil => rfl
  | cons t ts ih =>
    have h1 : 32 ∉ t := h t (by simp)
    have h2 : ∀ u ∈ ts, 32 ∉ u := fun u hu => h u (by simp [hu])
    have : commandLine (t :: ts) = t ++ 32 :: commandLine ts := by
      simp [commandLine, SP]
    rw [this, Split_SP_token _ _ h1, ih h2]; rfl

theorem Join_cons_cons (a b : Str) (rest : List Str) (sep : Str) :
    Join (a :: b :: rest) sep = a ++ sep ++ Join (b :: rest) sep := rfl

theorem Join_snoc_nil (toks : List Str) : Join (toks ++ [[]]) SP = commandLine toks := by
  induction toks with
  | nil => rfl
  | cons t ts ih =>
    cases ts with
    | nil => simp [Join, commandLine]
    | cons u us =>
      have : commandLine (t :: u :: us) = t ++ SP ++ commandLine (u :: us) := by
        simp [commandLine]
      rw [this, ← ih]; rfl

theorem Join_Split_SP (s : Str) : Join (Split s SP) SP = s := by
  induction s with
  | nil => rfl
  | cons c cs ih =>
    rw [Split_SP_cons]
    have hne := splitFrom_ne_nil SP cs 0
    cases hsp : Split cs SP with
    | nil => exact absurd hsp hne
    | cons p ps =>
      rw [hsp] at ih
      by_cases hc : c = 32
      · subst hc
        simp only [if_true, Join_cons_cons, ih]
        rfl
      · simp only [hc, if_false, consHead]
        cases ps with
        | nil => simp [Join] at ih ⊢; exact ih
        | cons q qs =>
          simp only [Join_cons_cons] at ih ⊢
          simp [← ih]

theorem commandLine_eq_Join (toks : List Str) (h : toks ≠ []) :
    commandLine toks = Join toks SP ++ SP := by
  induction toks with
  | nil => exact absurd rfl h
  | cons t ts ih =>
    cases ts with
    | nil => simp [commandLine, Join]
    | cons u us =>
      have : commandLine (t :: u :: us) = t ++ SP ++ commandLine (u :: us) := by
        simp [commandLine]
      rw [this, ih (by simp), Join_cons_cons]; simp

theorem Split_Join_SP (toks : List Str) (hne : toks ≠ []) (h : ∀ t ∈ toks, 32 ∉ t) :
    Split (Join toks SP) SP = toks := by
  induction toks with
  | nil => exact absurd rfl hne
  | cons t ts ih =>
    have h1 : 32 ∉ t := h t (by simp)
    have h2 : ∀ u ∈ ts, 32 ∉ u := fun u hu => h u (by simp [hu])
    cases ts with
    | nil => simpa [Join] using Split_SP_single t h1
    | cons u us =>
      rw [Join_cons_cons]
      have : t ++ SP ++ Join (u :: us) SP = t ++ 32 :: Join (u :: us) SP := by simp [SP]
      rw [this, Split_SP_token _ _ h1, ih (by simp) h2]

theorem Trim_append_SP (m : Str) : Trim (m ++ SP) SP = Trim m SP := by
  unfold Trim
  induction m with
  | nil => simp [SP, List.rdropWhile]
  | cons c m ih =>
    by_cases hc : c ∈ SP
    · simpa [List.dropWhile_cons, hc] using ih
    · have h1 : List.dropWhile (fun c => decide (c ∈ SP)) (c :: m ++ SP) = (c :: m) ++ SP := by
        simp [List.dropWhile_cons, hc]
      have h2 : List.dropWhile (fun c => decide (c ∈ SP)) (c :: m) = c :: m := by
        simp [List.dropWhile_cons, hc]
      rw [h1, h2]
      exact List.rdropWhile_concat_pos _ _ _ (by simp [SP])

theorem Trim_eq_self (m : Str) (h1 : m.head? ≠ some 32) (h2 : m.getLast? ≠ some 32) :
    Trim m SP = m := by
  unfold Trim
  have hd : List.dropWhile (fun c => decide (c ∈ SP)) m = m := by
    cases m with
    | nil => rfl
    | cons c m =>
      have : c ≠ 32 := fun e => h1 (by simp [e])
      simp [List.dropWhile_cons, SP, this]
  rw [hd, List.rdropWhile_eq_self_iff]
  intro hl hp
  apply h2
  rw [List.getLast?_eq_getLast _ hl]
  simpa [SP] using hp

theorem Join_head_last (toks : List Str) (hne : toks ≠ [])
    (h : ∀ t ∈ toks, t ≠ [] ∧ 32 ∉ t) :
    (Join toks SP).head? ≠ some 32 ∧ (Join toks SP).getLast? ≠ some 32 := by
  induction toks with
  | nil => exact absurd rfl hne
  | cons t ts ih =>
    obtain ⟨ht, ht32⟩ := h t (by simp)
    have h2 : ∀ u ∈ ts, u ≠ [] ∧ 32 ∉ u := fun u hu => h u (by simp [hu])
    have hhead : t.head? ≠ some 32 := by
      cases t with
      | nil => exact absurd rfl ht
      | cons c t => intro e; apply ht32; simp at e; simp [e]
    cases ts with
    | nil =>
      refine ⟨by simpa [Join] using hhead, ?_⟩
      simp only [Join]
      intro e
      exact ht32 (List.mem_of_getLast?_eq_some e)
    | cons u us =>
      obtain ⟨_, ihl⟩ := ih (by simp) h2
      rw [Join_cons_cons]
      constructor
      · cases t with
        | nil => exact absurd rfl ht
        | cons c t => simpa using hhead
      · have hj : Join (u :: us) SP ≠ [] := by
          intro e
          obtain ⟨hu, _⟩ := h2 u (by simp)
          cases us with
          | nil => exact hu (by simpa [Join] using e)
          | cons x xs => rw [Join_cons_cons] at e; simp [SP] at e
        rw [List.getLast?_append_of_ne_nil _ hj]
        exact ihl

theorem Trim_commandLine (toks : List Str) (h : ∀ t ∈ toks, t ≠ [] ∧ 32 ∉ t) :
    Trim (commandLine toks) SP = Join toks SP := by
  by_cases hne : toks = []
  · subst hne; rfl
  · obtain ⟨a, b⟩ := Join_head_last toks hne h
    rw [commandLine_eq_Join toks hne, Trim_append_SP, Trim_eq_self _ a b]

/-! ## Lemmas: decimal numbers -/

theorem digitsFrom_digits : ∀ (fuel n : Nat) (acc : Str), (∀ c ∈ acc, isDigit c) →
    ∀ c ∈ digitsFrom fuel n acc, isDigit c
  | 0, _, acc, h => by simpa [digitsFrom] using h
  | fuel + 1, n, acc, h => by
    have hd : isDigit (48 + n % 10) := by unfold isDigit; omega
    have hacc : ∀ c ∈ (48 + n % 10) :: acc, isDigit c := by
      intro c hc
      rcases List.mem_cons.mp hc with e | e
      · exact e ▸ hd
      · exact h c e
    simp only [digitsFrom]
    split
    · exact hacc
    · exact digitsFrom_digits fuel (n / 10) _ hacc

theorem digitsFrom_ne_nil : ∀ (fuel n : Nat) (acc : Str), acc ≠ [] → digitsFrom fuel n acc ≠ []
  | 0, _, acc, h => by simpa [digitsFrom] using h
  | fuel + 1, n, acc, _ => by
    simp only [digitsFrom]
    split
    · simp
    · exact digitsFrom_ne_nil fuel (n / 10) _ (by simp)

theorem natToDec_digits (n : Nat) : ∀ c ∈ natToDec n, isDigit c :=
  digitsFrom_digits (n + 1) n [] (by simp)

theorem natToDec_ne_nil (n : Nat) : natToDec n ≠ [] := by
  unfold natToDec
  simp only [digitsFrom]
  split
  · simp
  · exact digitsFrom_ne_nil n (n / 10) _ (by simp)

theorem parseDigits_digitsFrom : ∀ (fuel n : Nat) (rest : Str), n < fuel →
    parseDigits (digitsFrom fuel n rest) 0 = parseDigits rest n
  | 0, _, _, h => absurd h (Nat.not_lt_zero _)
  | fuel + 1, n, rest, h => by
    have hd : 48 ≤ 48 + n % 10 ∧ 48 + n % 10 ≤ 57 := by omega
    simp only [digitsFrom]
    split
    · rename_i h0
      have h1 : n % 10 = n := by omega
      have h2 : ¬ 57 < 48 + n := by omega
      simp [parseDigits, h1, h2]
    · rename_i h0
      rw [parseDigits_digitsFrom fuel (n / 10) _ (by omega)]
      have h1 : n / 10 * 10 + n % 10 = n := by omega
      have h2 : ¬ 57 < 48 + n % 10 := by omega
      simp [parseDigits, h1, h2]

theorem parseDigits_natToDec (n : Nat) : parseDigits (natToDec n) 0 = some n := by
  unfold natToDec
  rw [parseDigits_digitsFrom (n + 1) n [] (Nat.lt_succ_self n)]
  rfl

theorem natToDec_head (n : Nat) : ∃ c cs, natToDec n = c :: cs ∧ isDigit c := by
  cases h : natToDec n with
  | nil => exact absurd h (natToDec_ne_nil n)
  | cons c cs => exact ⟨c, cs, rfl, natToDec_digits n c (by simp [h])⟩

theorem Atoi_natToDec (n : Nat) (h : (n : Int) ≤ 9223372036854775807) :
    Atoi (natToDec n) = some (n : Int) := by
  obtain ⟨c, cs, hc, hd⟩ := natToDec_head n
  have h43 : c ≠ 43 := by unfold isDigit at hd; omega
  have h45 : c ≠ 45 := by unfold isDigit at hd; omega
  have hp := parseDigits_natToDec n
  rw [hc] at hp
  simp [Atoi, hc, h43, h45, hp, h]

theorem Atoi_neg_natToDec (n : Nat) (h : (n : Int) ≤ 9223372036854775808) :
    Atoi (45 :: natToDec n) = some (-(n : Int)) := by
  have hp := parseDigits_natToDec n
  simp [Atoi, natToDec_ne_nil, hp, h]

theorem Atoi_Itoa (t : Int) (h1 : minInt64 ≤ t) (h2 : t ≤ maxInt64) : Atoi (Itoa t) = some t := by
  unfold minInt64 at h1
  unfold maxInt64 at h2
  cases t with
  | ofNat n => exact Atoi_natToDec n (by simpa using h2)
  | negSucc n =>
    have hn : ((n + 1 : Nat) : Int) ≤ 9223372036854775808 := by
      have := Int.negSucc_eq n
      omega
    have := Atoi_neg_natToDec (n + 1) hn
    simpa [Itoa, Int.negSucc_eq] using this

theorem natToDec_not_mem (n c : Nat) (hc : ¬ isDigit c) : c ∉ natToDec n :=
  fun h => hc (natToDec_digits n c h)

theorem Itoa_ne_nil (t : Int) : Itoa t ≠ [] := by
  cases t with
  | ofNat n => exact natToDec_ne_nil n
  | negSucc n => simp [Itoa]

theorem Itoa_no_space (t : Int) : 32 ∉ Itoa t := by
  have h32 : ¬ isDigit 32 := by unfold isDigit; omega
  cases t with
  | ofNat n => exact natToDec_not_mem n 32 h32
  | negSucc n =>
    have := natToDec_not_mem (n + 1) 32 h32
    simp [Itoa, this]

/-! ## Lemmas: decoding an encoded array -/

theorem Split_CRLF_nil : Split [] CRLF = [[]] := rfl

theorem not_infix_of_not_mem (a : Str) (h : 13 ∉ a) : ¬ CRLF <:+: a := by
  intro hi
  exact h (hi.subset (by simp [CRLF]))

theorem Split_CRLF_token (a rest : Str) (h : ¬ CRLF <:+: a) :
    Split (a ++ CRLF ++ rest) CRLF = a :: Split rest CRLF := by
  induction a with
  | nil => simp [Split, splitFrom, CRLF]
  | cons c a ih =>
    have ha : ¬ CRLF <:+: a := fun hi => h (List.infix_cons hi)
    have hp : ¬ CRLF <+: (c :: a) := fun hp => h hp.isInfix
    have hnp : CRLF.isPrefixOf (c :: (a ++ CRLF ++ rest)) = false := by
      cases a with
      | nil =>
        by_cases hc : 13 = c
        · subst hc; simp [CRLF, List.isPrefixOf]
        · simp [CRLF, List.isPrefixOf, hc]
      | cons d a =>
        by_cases hc : 13 = c
        · by_cases hd : 10 = d
          · exfalso; apply hp; subst hc; subst hd
            exact ⟨a, rfl⟩
          · simp [CRLF, List.isPrefixOf, hd]
        · simp [CRLF, List.isPrefixOf, hc]
    have ih2 := ih ha
    unfold Split at ih2 ⊢
    have : c :: a ++ CRLF ++ rest = c :: (a ++ CRLF ++ rest) := by simp
    rw [this, splitFrom, hnp, ih2]
    simp [consHead]

theorem foldl_append_eq {α : Type} (f : α → Str) (l : List α) (init : Str) :
    l.foldl (fun resp e => resp ++ f e) init = init ++ l.flatMap f := by
  induction l generalizing init with
  | nil => simp
  | cons x xs ih => simp [ih]

theorem formatRESPArray_eq (toks : List Str) :
    formatRESPArray toks =
      (42 :: natToDec toks.length) ++ CRLF ++ toks.flatMap formatRESPBulkString := by
  unfold formatRESPArray
  rw [foldl_append_eq]
  simp

theorem header_no_CRLF (c : Nat) (hc : c ≠ 13) (n : Nat) : ¬ CRLF <:+: (c :: natToDec n) := by
  apply not_infix_of_not_mem
  have h13 : ¬ isDigit 13 := by unfold isDigit; omega
  have := natToDec_not_mem n 13 h13
  simp [this, hc.symm]

theorem Split_bulks (toks : List Str) (h : ∀ t ∈ toks, ¬ CRLF <:+: t) :
    Split (toks.flatMap formatRESPBulkString) CRLF =
      toks.flatMap (fun t => [36 :: natToDec t.length, t]) ++ [[]] := by
  induction toks with
  | nil => rfl
  | cons t ts ih =>
    have h1 := h t (by simp)
    have h2 : ∀ u ∈ ts, ¬ CRLF <:+: u := fun u hu => h u (by simp [hu])
    have e : (t :: ts).flatMap formatRESPBulkString =
        (36 :: natToDec t.length) ++ CRLF ++ (t ++ CRLF ++ ts.flatMap formatRESPBulkString) := by
      simp [formatRESPBulkString]
    rw [e, Split_CRLF_token _ _ (header_no_CRLF 36 (by decide) _), Split_CRLF_token _ _ h1, ih h2]
    simp

theorem parseLoop_pairs (hdr : Str → Str) : ∀ (ts : List Str) (t : Str) (i : Nat) (command : Str),
    i % 2 = 0 →
    parseLoop i (t :: (ts.flatMap (fun u => [hdr u, u]) ++ [[]])) command =
      command ++ commandLine (t :: ts)
  | [], t, i, command, hi => by
    have h1 : (i + 1) % 2 ≠ 0 := by omega
    simp [parseLoop, hi, h1, commandLine]
  | u :: us, t, i, command, hi => by
    have h1 : (i + 1) % 2 ≠ 0 := by omega
    have h2 : (i + 1 + 1) % 2 = 0 := by omega
    have ih := parseLoop_pairs hdr us u (i + 1 + 1) (command ++ (t ++ SP)) h2
    have e : (t :: ((u :: us).flatMap (fun u => [hdr u, u]) ++ [[]])) =
        t :: hdr u :: u :: (us.flatMap (fun u => [hdr u, u]) ++ [[]]) := by simp
    rw [e, parseLoop, parseLoop]
    simp only [hi, h1, if_true, if_false]
    rw [ih]
    simp [commandLine]

theorem parseCommand_star (s tl : Str) (hs : s = 42 :: tl) :
    parseCommand s =
      if (Split s CRLF).length < 2 then none
      else some (parseLoop 0 ((Split s CRLF).drop 2) [], none) := by
  subst hs
  simp [parseCommand]

theorem parseCommand_formatRESPArray (toks : List Str) (h : ∀ t ∈ toks, ¬ CRLF <:+: t) :
    parseCommand (formatRESPArray toks) = some (commandLine toks, none) := by
  have hs : Split (formatRESPArray toks) CRLF =
      (42 :: natToDec toks.length) ::
        (toks.flatMap (fun t => [36 :: natToDec t.length, t]) ++ [[]]) := by
    rw [formatRESPArray_eq, Split_CRLF_token _ _ (header_no_CRLF 42 (by decide) _), Split_bulks _ h]
  have hf : formatRESPArray toks =
      42 :: (natToDec toks.length ++ CRLF ++ toks.flatMap formatRESPBulkString) := by
    rw [formatRESPArray_eq]; simp
  rw [parseCommand_star _ _ hf, hs]
  cases toks with
  | nil => simp [parseLoop, commandLine]
  | cons t ts =>
    have := parseLoop_pairs (fun u => 36 :: natToDec u.length) ts t 0 [] rfl
    simpa using this

/-! ## Lemmas: dispatch on a command line of tokens -/

theorem bytes_PING : bytes "PING" = [80, 73, 78, 71] := by decide
theorem bytes_ECHO : bytes "ECHO" = [69, 67, 72, 79] := by decide
theorem bytes_SET : bytes "SET" = [83, 69, 84] := by decide
theorem bytes_GET : bytes "GET" = [71, 69, 84] := by decide
theorem bytes_CONFIG : bytes "CONFIG" = [67, 79, 78, 70, 73, 71] := by decide
theorem bytes_PX : bytes "PX" = [80, 88] := by decide

theorem ToUpper_SET (U : Str → Str) : ToUpper U (bytes "SET") = bytes "SET" := by rfl
theorem ToUpper_GET (U : Str → Str) : ToUpper U (bytes "GET") = bytes "GET" := by rfl
theorem ToUpper_PX (U : Str → Str) : ToUpper U (bytes "PX") = bytes "PX" := by rfl
theorem ToUpper_ECHO (U : Str → Str) : ToUpper U (bytes "ECHO") = bytes "ECHO" := by rfl

theorem dispatch_words (w : Str) (rest : List Str) (hw : 32 ∉ w) (hr : ∀ t ∈ rest, 32 ∉ t) :
    Split (commandLine (w :: rest)) SP = w :: (rest ++ [[]]) := by
  have := Split_commandLine (w :: rest) (by
    intro t ht
    rcases List.mem_cons.mp ht with e | e
    · exact e ▸ hw
    · exact hr t e)
  simpa using this

theorem dispatch_args (w : Str) (rest : List Str) (hw : 32 ∉ w)
    (hr : ∀ t ∈ rest, t ≠ [] ∧ 32 ∉ t) :
    Trim (Join ((Split (commandLine (w :: rest)) SP).drop 1) SP) SP = Join rest SP := by
  rw [dispatch_words w rest hw (fun t ht => (hr t ht).2)]
  simp only [List.drop_succ_cons, List.drop_zero]
  rw [Join_snoc_nil, Trim_commandLine rest hr]

/-- The SET branch on a command line of well-formed tokens with at least a key
and a value, other than four argument tokens: stores without expiry. -/
theorem processCommand_SET_plain (U : Str → Str) (cfg : Config) (now : Int) (db : DB)
    (w k v : Str) (more : List Str) (hU : ToUpper U w = bytes "SET") (hw : 32 ∉ w)
    (hr : ∀ t ∈ k :: v :: more, t ≠ [] ∧ 32 ∉ t) (hlen : more.length ≠ 2) :
    processCommand U cfg now db (commandLine (w :: k :: v :: more)) =
      some (bytes "+OK\r\n", handleSetCommand now db k v 0) := by
  have h1 := dispatch_words w (k :: v :: more) hw (fun t ht => (hr t ht).2)
  have h2 := dispatch_args w (k :: v :: more) hw hr
  have h3 := Split_Join_SP (k :: v :: more) (by simp) (fun t ht => (hr t ht).2)
  unfold processCommand
  simp only [h2, h3]
  simp [h1, hU, bytes_PING, bytes_ECHO, bytes_SET, hlen]

/-- The SET branch on a command line of four well-formed argument tokens. -/
theorem processCommand_SET_four (U : Str → Str) (cfg : Config) (now : Int) (db : DB)
    (w k v o n : Str) (hU : ToUpper U w = bytes "SET") (hw : 32 ∉ w)
    (hr : ∀ t ∈ [k, v, o, n], t ≠ [] ∧ 32 ∉ t) :
    processCommand U cfg now db (commandLine [w, k, v, o, n]) =
      match Atoi n with
      | none => some (errUnknown, db)
      | some ms =>
        if ToUpper U o ≠ bytes "PX" then some (errUnknown, db)
        else some (bytes "+OK\r\n", handleSetCommand now db k v ms) := by
  have h1 := dispatch_words w [k, v, o, n] hw (fun t ht => (hr t ht).2)
  have h2 := dispatch_args w [k, v, o, n] hw hr
  have h3 := Split_Join_SP [k, v, o, n] (by simp) (fun t ht => (hr t ht).2)
  unfold processCommand
  simp only [h2, h3]
  simp [h1, hU, bytes_PING, bytes_ECHO, bytes_SET]

/-- The GET branch on a command line of one well-formed key token. -/
theorem processCommand_GET (U : Str → Str) (cfg : Config) (now : Int) (db : DB)
    (w k : Str) (hU : ToUpper U w = bytes "GET") (hw : 32 ∉ w) (hk : k ≠ []) (hk32 : 32 ∉ k) :
    processCommand U cfg now db (commandLine [w, k]) =
      if (handleGetCommand now db k).1.2 then
        some (formatRESPBulkString (handleGetCommand now db k).1.1.value,
          (handleGetCommand now db k).2)
      else some (bytes "$-1\r\n", (handleGetCommand now db k).2) := by
  have hr : ∀ t ∈ [k], t ≠ [] ∧ 32 ∉ t := by simp [hk, hk32]
  have h1 := dispatch_words w [k] hw (fun t ht => (hr t ht).2)
  have h2 := dispatch_args w [k] hw hr
  unfold processCommand
  simp only [h2]
  simp [h1, hU, bytes_PING, bytes_ECHO, bytes_SET, bytes_GET, Join, formatRESPBulkString]

theorem wrap64_of_range (x : Int) (h1 : minInt64 ≤ x) (h2 : x ≤ maxInt64) : wrap64 x = x := by
  unfold minInt64 at h1
  unfold maxInt64 at h2
  unfold wrap64
  omega

theorem handleSetCommand_zero (now : Int) (db : DB) (k v : Str) :
    handleSetCommand now db k v 0 = db.insert k ⟨v, 0⟩ := by
  simp [handleSetCommand]

theorem handleSetCommand_nonzero (now : Int) (db : DB) (k v : Str) (ms : Int) (h : ms ≠ 0) :
    handleSetCommand now db k v ms = db.insert k ⟨v, wrap64 (now + ms)⟩ := by
  simp [handleSetCommand, h]

theorem isToken_Itoa (t : Int) : isToken (Itoa t) := ⟨Itoa_ne_nil t, Itoa_no_space t⟩

theorem isToken_PX : isToken (bytes "PX") := by decide

theorem no_space_SET : 32 ∉ bytes "SET" := by decide

theorem no_space_GET : 32 ∉ bytes "GET" := by decide

/-- SET without PX on well-formed tokens. -/
theorem set_plain (U : Str → Str) (cfg : Config) (now : Int) (db : DB) (k v : Str)
    (hk : isToken k) (hv : isToken v) :
    processCommand U cfg now db (commandLine [bytes "SET", k, v]) =
      some (bytes "+OK\r\n", db.insert k ⟨v, 0⟩) := by
  rw [processCommand_SET_plain U cfg now db _ k v [] (ToUpper_SET U) no_space_SET
    (by simp [hk.1, hk.2, hv.1, hv.2]) (by simp), handleSetCommand_zero]

/-- SET with `PX t` for a `t` that `Atoi` reads back. -/
theorem set_px (U : Str → Str) (cfg : Config) (now : Int) (db : DB) (k v : Str) (t : Int)
    (hk : isToken k) (hv : isToken v) (h1 : minInt64 ≤ t) (h2 : t ≤ maxInt64) :
    processCommand U cfg now db (commandLine [bytes "SET", k, v, bytes "PX", Itoa t]) =
      some (bytes "+OK\r\n", handleSetCommand now db k v t) := by
  have hr : ∀ u ∈ [k, v, bytes "PX", Itoa t], u ≠ [] ∧ 32 ∉ u := by
    intro u hu
    simp only [List.mem_cons, List.mem_singleton, List.not_mem_nil, or_false] at hu
    rcases hu with e | e | e | e
    · exact e ▸ hk
    · exact e ▸ hv
    · exact e ▸ isToken_PX
    · exact e ▸ isToken_Itoa t
  rw [processCommand_SET_four U cfg now db _ k v _ _ (ToUpper_SET U) no_space_SET hr,
    Atoi_Itoa t h1 h2]
  simp [ToUpper_PX]

/-- GET of a key whose entry is live at the clock reading. -/
theorem get_live (U : Str → Str) (cfg : Config) (now : Int) (db : DB) (k v : Str) (e : Int)
    (hk : isToken k) (hdb : db k = some ⟨v, e⟩) (h : e = 0 ∨ now ≤ e) :
    processCommand U cfg now db (commandLine [bytes "GET", k]) =
      some (formatRESPBulkString v, db) := by
  have hn : ¬ (e ≠ 0 ∧ now > e) := by
    rcases h with h | h
    · simp [h]
    · intro hh; omega
  have hg : handleGetCommand now db k = ((⟨v, e⟩, true), db) := by
    simp [handleGetCommand, hdb, hn]
  rw [processCommand_GET U cfg now db _ k (ToUpper_GET U) no_space_GET hk.1 hk.2, hg]
  simp

/-- GET of a key whose entry is past its deadline at the clock reading. -/
theorem get_expired (U : Str → Str) (cfg : Config) (now : Int) (db : DB) (k v : Str) (e : Int)
    (hk : isToken k) (hdb : db k = some ⟨v, e⟩) (h0 : e ≠ 0) (h : e < now) :
    processCommand U cfg now db (commandLine [bytes "GET", k]) =
      some (bytes "$-1\r\n", db.erase k) := by
  have hn : e ≠ 0 ∧ now > e := ⟨h0, h⟩
  have hg : handleGetCommand now db k = ((⟨v, e⟩, false), db.erase k) := by
    simp [handleGetCommand, hdb, hn]
  rw [processCommand_GET U cfg now db _ k (ToUpper_GET U) no_space_GET hk.1 hk.2, hg]
  simp

theorem DB.insert_same (db : DB) (k : Str) (e : KVExpiry) : (db.insert k e) k = some e := by
  simp [DB.insert]

theorem DB.erase_same (db : DB) (k : Str) : (db.erase k) k = none := by
  simp [DB.erase]

/-! ## Claims -/

/-- C1, as stated, fails: decoding and dispatching `[SET, k, "a b"]` stores only
`a` under `k`, so the following `[GET, k]` replies the bulk string of `a`, not
of `a b`. -/
theorem C1_counterexample :
    parseCommand (formatRESPArray [bytes "SET", bytes "k", bytes "a b"]) =
        some (bytes "SET k a b ", none) ∧
      processCommand id (fun _ => none) 0 emptyDB (bytes "SET k a b ") =
        some (bytes "+OK\r\n", emptyDB.insert (bytes "k") ⟨bytes "a", 0⟩) ∧
      parseCommand (formatRESPArray [bytes "GET", bytes "k"]) = some (bytes "GET k ", none) ∧
      processCommand id (fun _ => none) 0 (emptyDB.insert (bytes "k") ⟨bytes "a", 0⟩)
          (bytes "GET k ") =
        some (bytes "$1\r\na\r\n", emptyDB.insert (bytes "k") ⟨bytes "a", 0⟩) ∧
      bytes "$1\r\na\r\n" ≠ formatRESPBulkString (bytes "a b") :=
  ⟨by decide, by rfl, by decide, by rfl, by decide⟩

/-- C1, amended: for every key `k` and value `v` that are non-empty and contain
neither a space nor CRLF, from any store and at any clock readings, the RESP
array `[SET, k, v]` decodes to the command line `SET k v `, whose dispatch
replies `+OK` and stores `v` under `k` without expiry; `[GET, k]` then decodes
to `GET k `, whose dispatch replies exactly the bulk string of `v`. -/
theorem C1_set_get_roundtrip (U : Str → Str) (cfg : Config) (T0 T1 : Int) (db : DB)
    (k v : Str) (hk : isToken k) (hkc : ¬ CRLF <:+: k) (hv : isToken v) (hvc : ¬ CRLF <:+: v) :
    parseCommand (formatRESPArray [bytes "SET", k, v]) =
        some (commandLine [bytes "SET", k, v], none) ∧
      processCommand U cfg T0 db (commandLine [bytes "SET", k, v]) =
        some (bytes "+OK\r\n", db.insert k ⟨v, 0⟩) ∧
      parseCommand (formatRESPArray [bytes "GET", k]) =
        some (commandLine [bytes "GET", k], none) ∧
      processCommand U cfg T1 (db.insert k ⟨v, 0⟩) (commandLine [bytes "GET", k]) =
        some (formatRESPBulkString v, db.insert k ⟨v, 0⟩) := by
  have hS : ¬ CRLF <:+: bytes "SET" := by decide
  have hG : ¬ CRLF <:+: bytes "GET" := by decide
  refine ⟨?_, set_plain U cfg T0 db k v hk hv, ?_, ?_⟩
  · apply parseCommand_formatRESPArray
    intro t ht
    simp only [List.mem_cons, List.mem_singleton, List.not_mem_nil, or_false] at ht
    rcases ht with e | e | e
    · exact e ▸ hS
    · exact e ▸ hkc
    · exact e ▸ hvc
  · apply parseCommand_formatRESPArray
    intro t ht
    simp only [List.mem_cons, List.mem_singleton, List.not_mem_nil, or_false] at ht
    rcases ht with e | e
    · exact e ▸ hG
    · exact e ▸ hkc
  · exact get_live U cfg T1 _ k v 0 hk (DB.insert_same db k _) (Or.inl rfl)

/-- C1, amended, at `k = foo`, `v = bar` on the empty store. -/
theorem C1_set_get_roundtrip_witness :
    (isToken (bytes "foo") ∧ ¬ CRLF <:+: bytes "foo" ∧
      isToken (bytes "bar") ∧ ¬ CRLF <:+: bytes "bar") ∧
    (parseCommand (formatRESPArray [bytes "SET", bytes "foo", bytes "bar"]) =
        some (commandLine [bytes "SET", bytes "foo", bytes "bar"], none) ∧
      processCommand id (fun _ => none) 0 emptyDB
          (commandLine [bytes "SET", bytes "foo", bytes "bar"]) =
        some (bytes "+OK\r\n", emptyDB.insert (bytes "foo") ⟨bytes "bar", 0⟩) ∧
      parseCommand (formatRESPArray [bytes "GET", bytes "foo"]) =
        some (commandLine [bytes "GET", bytes "foo"], none) ∧
      processCommand id (fun _ => none) 5 (emptyDB.insert (bytes "foo") ⟨bytes "bar", 0⟩)
          (commandLine [bytes "GET", bytes "foo"]) =
        some (formatRESPBulkString (bytes "bar"),
          emptyDB.insert (bytes "foo") ⟨bytes "bar", 0⟩)) :=
  ⟨⟨by decide, by decide, by decide, by decide⟩,
    C1_set_get_roundtrip id (fun _ => none) 0 5 emptyDB (bytes "foo") (bytes "bar")
      (by decide) (by decide) (by decide) (by decide)⟩

/-- C2, as stated, fails at the deadline itself: `SET k v PX 100` at clock 1000
stores the deadline 1100, and `GET k` at clock 1100 (elapsed time exactly 100)
still replies the bulk string of `v` and keeps `k` in the store. -/
theorem C2_counterexample :
    processCommand id (fun _ => none) 1000 emptyDB (bytes "SET k v PX 100 ") =
        some (bytes "+OK\r\n", emptyDB.insert (bytes "k") ⟨bytes "v", 1100⟩) ∧
      processCommand id (fun _ => none) 1100 (emptyDB.insert (bytes "k") ⟨bytes "v", 1100⟩)
          (bytes "GET k ") =
        some (bytes "$1\r\nv\r\n", emptyDB.insert (bytes "k") ⟨bytes "v", 1100⟩) ∧
      bytes "$1\r\nv\r\n" ≠ bytes "$-1\r\n" ∧
      (emptyDB.insert (bytes "k") ⟨bytes "v", 1100⟩) (bytes "k") ≠ none :=
  ⟨by rfl, by rfl, by decide, by decide⟩

/-- C2, amended: for every key `k` and value `v` (non-empty, without spaces) and
every integer `t > 0`, if `SET k v PX t` is dispatched at an `int64` clock
reading `T0 ≥ 0` and `GET k` at an `int64` clock reading `T1` with
`T1 - T0 > t`, then the SET replies `+OK` and stores the deadline `T0 + t`, the
GET replies the null bulk string `$-1\r\n`, and `k` is absent from the store
afterwards. -/
theorem C2_expired_after_deadline (U : Str → Str) (cfg : Config) (db : DB) (k v : Str)
    (t T0 T1 : Int) (hk : isToken k) (hv : isToken v) (ht : 0 < t) (hT0 : 0 ≤ T0)
    (hT1 : T1 ≤ maxInt64) (hlate : t < T1 - T0) :
    processCommand U cfg T0 db (commandLine [bytes "SET", k, v, bytes "PX", Itoa t]) =
        some (bytes "+OK\r\n", db.insert k ⟨v, T0 + t⟩) ∧
      processCommand U cfg T1 (db.insert k ⟨v, T0 + t⟩) (commandLine [bytes "GET", k]) =
        some (bytes "$-1\r\n", (db.insert k ⟨v, T0 + t⟩).erase k) ∧
      ((db.insert k ⟨v, T0 + t⟩).erase k) k = none := by
  have hmax : T0 + t ≤ maxInt64 := by omega
  have hmin : minInt64 ≤ T0 + t := by unfold minInt64; omega
  have htmax : t ≤ maxInt64 := by omega
  have htmin : minInt64 ≤ t := by unfold minInt64; omega
  refine ⟨?_, ?_, DB.erase_same _ k⟩
  · rw [set_px U cfg T0 db k v t hk hv htmin htmax,
      handleSetCommand_nonzero T0 db k v t (by omega), wrap64_of_range _ hmin hmax]
  · exact get_expired U cfg T1 _ k v (T0 + t) hk (DB.insert_same db k _) (by omega) (by omega)

/-- C2, amended, at `SET foo bar PX 100` at clock 1000 and `GET foo` at clock
1150. -/
theorem C2_expired_after_deadline_witness :
    (isToken (bytes "foo") ∧ isToken (bytes "bar") ∧ (0 : Int) < 100 ∧ (0 : Int) ≤ 1000 ∧
      (1150 : Int) ≤ maxInt64 ∧ (100 : Int) < 1150 - 1000) ∧
    (processCommand id (fun _ => none) 1000 emptyDB
          (commandLine [bytes "SET", bytes "foo", bytes "bar", bytes "PX", Itoa 100]) =
        some (bytes "+OK\r\n", emptyDB.insert (bytes "foo") ⟨bytes "bar", 1000 + 100⟩) ∧
      processCommand id (fun _ => none) 1150
          (emptyDB.insert (bytes "foo") ⟨bytes "bar", 1000 + 100⟩)
          (commandLine [bytes "GET", bytes "foo"]) =
        some (bytes "$-1\r\n",
          (emptyDB.insert (bytes "foo") ⟨bytes "bar", 1000 + 100⟩).erase (bytes "foo")) ∧
      ((emptyDB.insert (bytes "foo") ⟨bytes "bar", 1000 + 100⟩).erase (bytes "foo"))
        (bytes "foo") = none) :=
  ⟨⟨by decide, by decide, by decide, by decide, by decide, by decide⟩,
    C2_expired_after_deadline id (fun _ => none) emptyDB (bytes "foo") (bytes "bar") 100 1000 1150
      (by decide) (by decide) (by decide) (by decide) (by decide) (by decide)⟩

/-- Before the deadline, when the deadline fits `int64`: `SET k v PX t` at clock
`T0 ≥ 0` with `T0 + t ≤ maxInt64`, then `GET k` at a clock `T1 ≤ T0 + t`,
replies the bulk string of `v` and keeps the entry. -/
theorem set_px_visible_in_range (U : Str → Str) (cfg : Config) (db : DB) (k v : Str)
    (t T0 T1 : Int) (hk : isToken k) (hv : isToken v) (ht : 0 < t) (hT0 : 0 ≤ T0)
    (hfit : T0 + t ≤ maxInt64) (hearly : T1 ≤ T0 + t) :
    processCommand U cfg T0 db (commandLine [bytes "SET", k, v, bytes "PX", Itoa t]) =
        some (bytes "+OK\r\n", db.insert k ⟨v, T0 + t⟩) ∧
      processCommand U cfg T1 (db.insert k ⟨v, T0 + t⟩) (commandLine [bytes "GET", k]) =
        some (formatRESPBulkString v, db.insert k ⟨v, T0 + t⟩) := by
  have hmin : minInt64 ≤ T0 + t := by unfold minInt64; omega
  have htmax : t ≤ maxInt64 := by omega
  have htmin : minInt64 ≤ t := by unfold minInt64; omega
  constructor
  · rw [set_px U cfg T0 db k v t hk hv htmin htmax,
      handleSetCommand_nonzero T0 db k v t (by omega), wrap64_of_range _ hmin hfit]
  · exact get_live U cfg T1 _ k v (T0 + t) hk (DB.insert_same db k _) (Or.inr hearly)

/-- C3 fails on the code: `SET k v PX 9223372036854775807` at the clock reading
1700000000000 is accepted, the deadline `T0 + t` wraps around to
-9223370336854775809, and `GET k` one millisecond later (elapsed time 1 < t)
replies the null bulk string and removes `k`. -/
theorem C3_deadline_overflow :
    Atoi (bytes "9223372036854775807") = some 9223372036854775807 ∧
      processCommand id (fun _ => none) 1700000000000 emptyDB
          (bytes "SET k v PX 9223372036854775807 ") =
        some (bytes "+OK\r\n",
          emptyDB.insert (bytes "k") ⟨bytes "v", -9223370336854775809⟩) ∧
      processCommand id (fun _ => none) 1700000000001
          (emptyDB.insert (bytes "k") ⟨bytes "v", -9223370336854775809⟩) (bytes "GET k ") =
        some (bytes "$-1\r\n",
          (emptyDB.insert (bytes "k") ⟨bytes "v", -9223370336854775809⟩).erase (bytes "k")) ∧
      bytes "$-1\r\n" ≠ formatRESPBulkString (bytes "v") ∧
      ((emptyDB.insert (bytes "k") ⟨bytes "v", -9223370336854775809⟩).erase (bytes "k"))
        (bytes "k") = none :=
  ⟨by decide, by rfl, by rfl, by decide, by decide⟩

theorem Itoa_zero : Itoa 0 = bytes "0" := by decide

/-- C4: for every key `k` and value `v` (non-empty, without spaces), `SET k v`
and `SET k v PX 0` both reply `+OK` and store `v` under `k` with the no-expiry
marker (expiry 0); on every store that still holds that entry for `k`, `GET k`
at any clock reading whatsoever replies the bulk string of `v` and leaves the
store as it is. -/
theorem C4_no_expiry (U : Str → Str) (cfg : Config) (db : DB) (k v : Str) (T0 T1 : Int)
    (hk : isToken k) (hv : isToken v) :
    processCommand U cfg T0 db (commandLine [bytes "SET", k, v]) =
        some (bytes "+OK\r\n", db.insert k ⟨v, 0⟩) ∧
      processCommand U cfg T0 db (commandLine [bytes "SET", k, v, bytes "PX", bytes "0"]) =
        some (bytes "+OK\r\n", db.insert k ⟨v, 0⟩) ∧
      (db.insert k ⟨v, 0⟩) k = some ⟨v, 0⟩ ∧
      ∀ later : DB, later k = some ⟨v, 0⟩ →
        processCommand U cfg T1 later (commandLine [bytes "GET", k]) =
          some (formatRESPBulkString v, later) := by
  refine ⟨set_plain U cfg T0 db k v hk hv, ?_, DB.insert_same db k _, ?_⟩
  · rw [← Itoa_zero, set_px U cfg T0 db k v 0 hk hv (by decide) (by decide),
      handleSetCommand_zero]
  · intro later hl
    exact get_live U cfg T1 later k v 0 hk hl (Or.inl rfl)

/-- C4 at `k = foo`, `v = bar`, SET at clock 1000 on the empty store. -/
theorem C4_no_expiry_witness :
    (isToken (bytes "foo") ∧ isToken (bytes "bar")) ∧
    (processCommand id (fun _ => none) 1000 emptyDB
          (commandLine [bytes "SET", bytes "foo", bytes "bar"]) =
        some (bytes "+OK\r\n", emptyDB.insert (bytes "foo") ⟨bytes "bar", 0⟩) ∧
      processCommand id (fun _ => none) 1000 emptyDB
          (commandLine [bytes "SET", bytes "foo", bytes "bar", bytes "PX", bytes "0"]) =
        some (bytes "+OK\r\n", emptyDB.insert (bytes "foo") ⟨bytes "bar", 0⟩) ∧
      (emptyDB.insert (bytes "foo") ⟨bytes "bar", 0⟩) (bytes "foo") = some ⟨bytes "bar", 0⟩ ∧
      ∀ later : DB, later (bytes "foo") = some ⟨bytes "bar", 0⟩ →
        processCommand id (fun _ => none) 9223372036854775807 later
            (commandLine [bytes "GET", bytes "foo"]) =
          some (formatRESPBulkString (bytes "bar"), later)) :=
  ⟨⟨by decide, by decide⟩,
    C4_no_expiry id (fun _ => none) emptyDB (bytes "foo") (bytes "bar") 1000 9223372036854775807
      (by decide) (by decide)⟩

/-- The first SET of the overwrite scenario always completes, whatever the
integer after `PX`. -/
theorem set_px_completes (U : Str → Str) (cfg : Config) (now : Int) (db : DB) (k v : Str)
    (t : Int) (hk : isToken k) (hv : isToken v) :
    ∃ r db1, processCommand U cfg now db
      (commandLine [bytes "SET", k, v, bytes "PX", Itoa t]) = some (r, db1) := by
  have hr : ∀ u ∈ [k, v, bytes "PX", Itoa t], u ≠ [] ∧ 32 ∉ u := by
    intro u hu
    simp only [List.mem_cons, List.mem_singleton, List.not_mem_nil, or_false] at hu
    rcases hu with e | e | e | e
    · exact e ▸ hk
    · exact e ▸ hv
    · exact e ▸ isToken_PX
    · exact e ▸ isToken_Itoa t
  rw [processCommand_SET_four U cfg now db _ k v _ _ (ToUpper_SET U) no_space_SET hr]
  cases Atoi (Itoa t) with
  | none => exact ⟨_, _, rfl⟩
  | some ms => simp [ToUpper_PX]

/-- C5: for every key `k`, values `v1`, `v2` (non-empty, without spaces) and
every integer `t`, the first command `SET k v1 PX t` (or `SET k v1`) completes,
and on the store it leaves, `SET k v2` replies `+OK` and stores `v2` under `k`
with expiry 0, after which `GET k` at any clock reading replies the bulk string
of `v2` and keeps the entry: nothing of the first entry survives. -/
theorem C5_overwrite_discards_old_entry (U : Str → Str) (cfg : Config) (db : DB)
    (k v1 v2 : Str) (t T0 T1 T2 : Int) (hk : isToken k) (hv1 : isToken v1)
    (hv2 : isToken v2) :
    (∃ r1 db1,
        (processCommand U cfg T0 db (commandLine [bytes "SET", k, v1, bytes "PX", Itoa t]) =
          some (r1, db1)) ∧
        processCommand U cfg T1 db1 (commandLine [bytes "SET", k, v2]) =
          some (bytes "+OK\r\n", db1.insert k ⟨v2, 0⟩) ∧
        processCommand U cfg T2 (db1.insert k ⟨v2, 0⟩) (commandLine [bytes "GET", k]) =
          some (formatRESPBulkString v2, db1.insert k ⟨v2, 0⟩)) ∧
    (∃ r1 db1,
        (processCommand U cfg T0 db (commandLine [bytes "SET", k, v1]) = some (r1, db1)) ∧
        processCommand U cfg T1 db1 (commandLine [bytes "SET", k, v2]) =
          some (bytes "+OK\r\n", db1.insert k ⟨v2, 0⟩) ∧
        processCommand U cfg T2 (db1.insert k ⟨v2, 0⟩) (commandLine [bytes "GET", k]) =
          some (formatRESPBulkString v2, db1.insert k ⟨v2, 0⟩)) := by
  have after : ∀ db1 : DB,
      processCommand U cfg T1 db1 (commandLine [bytes "SET", k, v2]) =
          some (bytes "+OK\r\n", db1.insert k ⟨v2, 0⟩) ∧
        processCommand U cfg T2 (db1.insert k ⟨v2, 0⟩) (commandLine [bytes "GET", k]) =
          some (formatRESPBulkString v2, db1.insert k ⟨v2, 0⟩) := fun db1 =>
    ⟨set_plain U cfg T1 db1 k v2 hk hv2,
      get_live U cfg T2 _ k v2 0 hk (DB.insert_same db1 k _) (Or.inl rfl)⟩
  constructor
  · obtain ⟨r1, db1, h1⟩ := set_px_completes U cfg T0 db k v1 t hk hv1
    exact ⟨r1, db1, h1, after db1⟩
  · exact ⟨_, _, set_plain U cfg T0 db k v1 hk hv1, after _⟩

/-- C5 at `SET foo old PX 100` at clock 1000, `SET foo new` at clock 1050 and
`GET foo` at clock 5000, long after the first deadline. -/
theorem C5_overwrite_discards_old_entry_witness :
    (isToken (bytes "foo") ∧ isToken (bytes "old") ∧ isToken (bytes "new")) ∧
    ((∃ r1 db1,
        (processCommand id (fun _ => none) 1000 emptyDB
            (commandLine [bytes "SET", bytes "foo", bytes "old", bytes "PX", Itoa 100]) =
          some (r1, db1)) ∧
        processCommand id (fun _ => none) 1050 db1
            (commandLine [bytes "SET", bytes "foo", bytes "new"]) =
          some (bytes "+OK\r\n", db1.insert (bytes "foo") ⟨bytes "new", 0⟩) ∧
        processCommand id (fun _ => none) 5000 (db1.insert (bytes "foo") ⟨bytes "new", 0⟩)
            (commandLine [bytes "GET", bytes "foo"]) =
          some (formatRESPBulkString (bytes "new"),
            db1.insert (bytes "foo") ⟨bytes "new", 0⟩)) ∧
    (∃ r1 db1,
        (processCommand id (fun _ => none) 1000 emptyDB
            (commandLine [bytes "SET", bytes "foo", bytes "old"]) = some (r1, db1)) ∧
        processCommand id (fun _ => none) 1050 db1
            (commandLine [bytes "SET", bytes "foo", bytes "new"]) =
          some (bytes "+OK\r\n", db1.insert (bytes "foo") ⟨bytes "new", 0⟩) ∧
        processCommand id (fun _ => none) 5000 (db1.insert (bytes "foo") ⟨bytes "new", 0⟩)
            (commandLine [bytes "GET", bytes "foo"]) =
          some (formatRESPBulkString (bytes "new"),
            db1.insert (bytes "foo") ⟨bytes "new", 0⟩))) :=
  ⟨⟨by decide, by decide, by decide⟩,
    C5_overwrite_discards_old_entry id (fun _ => none) emptyDB (bytes "foo") (bytes "old")
      (bytes "new") 100 1000 1050 5000 (by decide) (by decide) (by decide)⟩

theorem Split_SP_head (s : Str) : (Split s SP)[0]? = some (firstWord s) := by
  induction s with
  | nil => rfl
  | cons c cs ih =>
    rw [Split_SP_cons]
    by_cases hc : c = 32
    · subst hc; simp [firstWord]
    · have hne := splitFrom_ne_nil SP cs 0
      cases hsp : Split cs SP with
      | nil => exact absurd hsp hne
      | cons p ps =>
        rw [hsp] at ih
        simp only [List.getElem?_cons_zero, Option.some.injEq] at ih
        simp [hc, consHead, firstWord, List.takeWhile_cons, ih]

/-- C6: for every command string whose first space-delimited word, upper-cased
as the dispatcher does, is none of PING, ECHO, SET, GET, CONFIG (the empty
command included), `processCommand` replies exactly `-ERR unknown command\r\n`
and leaves the store unchanged. -/
theorem C6_unknown_command (U : Str → Str) (cfg : Config) (now : Int) (db : DB) (s : Str)
    (h : ToUpper U (firstWord s) ∉
      [bytes "PING", bytes "ECHO", bytes "SET", bytes "GET", bytes "CONFIG"]) :
    processCommand U cfg now db s = some (bytes "-ERR unknown command\r\n", db) := by
  simp only [List.mem_cons, List.mem_singleton, List.not_mem_nil, or_false, not_or] at h
  obtain ⟨h1, h2, h3, h4, h5⟩ := h
  unfold processCommand
  simp only [Split_SP_head]
  simp [h1, h2, h3, h4, h5, errUnknown]

/-- C6 at the command line `flushall now `. -/
theorem C6_unknown_command_witness :
    (ToUpper id (firstWord (bytes "flushall now ")) ∉
      [bytes "PING", bytes "ECHO", bytes "SET", bytes "GET", bytes "CONFIG"]) ∧
    processCommand id (fun _ => none) 0 emptyDB (bytes "flushall now ") =
      some (bytes "-ERR unknown command\r\n", emptyDB) :=
  ⟨by decide, C6_unknown_command id (fun _ => none) 0 emptyDB (bytes "flushall now ") (by decide)⟩

/-- The ECHO branch on a decoded two-token command line: the reply is the bulk
string of the message with its leading and trailing spaces removed. -/
theorem processCommand_ECHO (U : Str → Str) (cfg : Config) (now : Int) (db : DB) (w m : Str)
    (hU : ToUpper U w = bytes "ECHO") (hw : 32 ∉ w) :
    processCommand U cfg now db (commandLine [w, m]) =
      some (formatRESPBulkString (Trim m SP), db) := by
  have e : commandLine [w, m] = w ++ 32 :: (m ++ SP) := by simp [commandLine, SP]
  have h1 : Split (commandLine [w, m]) SP = w :: Split (m ++ SP) SP := by
    rw [e, Split_SP_token _ _ hw]
  unfold processCommand
  simp only [h1, List.drop_succ_cons, List.drop_zero, Join_Split_SP, Trim_append_SP]
  simp [hU, bytes_PING, bytes_ECHO, formatRESPBulkString]

/-- C7, as stated, fails: for the message ` hi` (a leading space, no CRLF) the
array `[ECHO, " hi"]` decodes to `ECHO  hi ` and the reply is the bulk string
of `hi`, two bytes, not of the three-byte message. -/
theorem C7_counterexample :
    ¬ CRLF <:+: bytes " hi" ∧
      parseCommand (formatRESPArray [bytes "ECHO", bytes " hi"]) =
        some (bytes "ECHO  hi ", none) ∧
      processCommand id (fun _ => none) 0 emptyDB (bytes "ECHO  hi ") =
        some (bytes "$2\r\nhi\r\n", emptyDB) ∧
      bytes "$2\r\nhi\r\n" ≠ formatRESPBulkString (bytes " hi") :=
  ⟨by decide, by decide, by rfl, by decide⟩

/-- C7, amended: for every message `m` that contains no CRLF and neither starts
nor ends with a space, the RESP array `[ECHO, m]` decodes to the command line
`ECHO m `, whose dispatch replies exactly the bulk string of `m` and leaves the
store unchanged. -/
theorem C7_echo_verbatim (U : Str → Str) (cfg : Config) (now : Int) (db : DB) (m : Str)
    (hc : ¬ CRLF <:+: m) (h1 : m.head? ≠ some 32) (h2 : m.getLast? ≠ some 32) :
    parseCommand (formatRESPArray [bytes "ECHO", m]) =
        some (commandLine [bytes "ECHO", m], none) ∧
      processCommand U cfg now db (commandLine [bytes "ECHO", m]) =
        some (formatRESPBulkString m, db) := by
  have hE : ¬ CRLF <:+: bytes "ECHO" := by decide
  constructor
  · apply parseCommand_formatRESPArray
    intro t ht
    simp only [List.mem_cons, List.mem_singleton, List.not_mem_nil, or_false] at ht
    rcases ht with e | e
    · exact e ▸ hE
    · exact e ▸ hc
  · rw [processCommand_ECHO U cfg now db _ m (ToUpper_ECHO U) (by decide),
      Trim_eq_self m h1 h2]

/-- C7, amended, at the message `hello`: the reply is `$5\r\nhello\r\n`. -/
theorem C7_echo_verbatim_witness :
    (¬ CRLF <:+: bytes "hello" ∧ (bytes "hello").head? ≠ some 32 ∧
      (bytes "hello").getLast? ≠ some 32) ∧
    (parseCommand (formatRESPArray [bytes "ECHO", bytes "hello"]) =
        some (commandLine [bytes "ECHO", bytes "hello"], none) ∧
      processCommand id (fun _ => none) 0 emptyDB (commandLine [bytes "ECHO", bytes "hello"]) =
        some (formatRESPBulkString (bytes "hello"), emptyDB)) ∧
    formatRESPBulkString (bytes "hello") = bytes "$5\r\nhello\r\n" :=
  ⟨⟨by decide, by decide, by decide⟩,
    C7_echo_verbatim id (fun _ => none) 0 emptyDB (bytes "hello") (by decide) (by decide)
      (by decide),
    by decide⟩

/-- The CONFIG GET branch on a command line of three space-free words. -/
theorem processCommand_CONFIG_GET (U : Str → Str) (cfg : Config) (now : Int) (db : DB)
    (c g key : Str) (hc : ToUpper U c = bytes "CONFIG") (hc32 : 32 ∉ c)
    (hg : ToUpper U g = bytes "GET") (hg32 : 32 ∉ g) (hkey : 32 ∉ key) :
    processCommand U cfg now db (commandLine [c, g, key]) =
      some (formatRESPArray [key, getConfig cfg key], db) := by
  have h1 := dispatch_words c [g, key] hc32 (by
    intro t ht
    simp only [List.mem_cons, List.mem_singleton, List.not_mem_nil, or_false] at ht
    rcases ht with e | e
    · exact e ▸ hg32
    · exact e ▸ hkey)
  unfold processCommand
  simp only [h1]
  simp [hc, hg, bytes_PING, bytes_ECHO, bytes_SET, bytes_GET, bytes_CONFIG]

/-- C8: for every config map and every key without a space, dispatching
`CONFIG GET key`, with the command name and `GET` in any spelling that
upper-cases to `CONFIG` and `GET`, replies exactly
`formatRESPArray [key, value]` and leaves the store unchanged, where `value` is
the configured string for `key`, or the empty string when `key` is not
configured; the reply reads
`*2\r\n$<len key>\r\n<key>\r\n$<len value>\r\n<value>\r\n`. -/
theorem C8_config_get (U : Str → Str) (cfg : Config) (now : Int) (db : DB) (c g key : Str)
    (hc : ToUpper U c = bytes "CONFIG") (hc32 : 32 ∉ c)
    (hg : ToUpper U g = bytes "GET") (hg32 : 32 ∉ g) (hkey : 32 ∉ key) :
    processCommand U cfg now db (commandLine [c, g, key]) =
        some (formatRESPArray [key, getConfig cfg key], db) ∧
      formatRESPArray [key, getConfig cfg key] =
        bytes "*2\r\n" ++ (bytes "$" ++ natToDec key.length ++ bytes "\r\n" ++ key ++ bytes "\r\n")
          ++ (bytes "$" ++ natToDec (getConfig cfg key).length ++ bytes "\r\n"
            ++ getConfig cfg key ++ bytes "\r\n") ∧
      (∀ value, cfg key = some value → getConfig cfg key = value) ∧
      (cfg key = none → getConfig cfg key = []) := by
  refine ⟨processCommand_CONFIG_GET U cfg now db c g key hc hc32 hg hg32 hkey, ?_, ?_, ?_⟩
  · have e1 : bytes "*2\r\n" = [42] ++ natToDec 2 ++ CRLF := by decide
    have e2 : bytes "$" = [36] := by decide
    have e3 : bytes "\r\n" = CRLF := by decide
    rw [e1, e2, e3]
    simp [formatRESPArray, formatRESPBulkString]
  · intro value hv
    simp [getConfig, hv]
  · intro hn
    simp [getConfig, hn]

/-- C8 at `config get dir` with `dir` configured as `/tmp/data`: the reply is
`*2\r\n$3\r\ndir\r\n$9\r\n/tmp/data\r\n`. -/
theorem C8_config_get_witness :
    (ToUpper id (bytes "config") = bytes "CONFIG" ∧ 32 ∉ bytes "config" ∧
      ToUpper id (bytes "get") = bytes "GET" ∧ 32 ∉ bytes "get" ∧ 32 ∉ bytes "dir") ∧
    processCommand id
        (fun key => if key = bytes "dir" then some (bytes "/tmp/data")
          else if key = bytes "dbfilename" then some (bytes "dump.rdb") else none)
        0 emptyDB (commandLine [bytes "config", bytes "get", bytes "dir"]) =
      some (bytes "*2\r\n$3\r\ndir\r\n$9\r\n/tmp/data\r\n", emptyDB) :=
  ⟨⟨by decide, by decide, by decide, by decide, by decide⟩,
    (C8_config_get id
      (fun key => if key = bytes "dir" then some (bytes "/tmp/data")
        else if key = bytes "dbfilename" then some (bytes "dump.rdb") else none)
      0 emptyDB (bytes "config") (bytes "get") (bytes "dir")
      (by decide) (by decide) (by decide) (by decide) (by decide)).1.trans (by rfl)⟩

/-- C9, as stated, fails: `SET k v x`, three argument tokens, is not rejected;
the reply is `+OK` and the store gains `k`. -/
theorem C9_counterexample :
    processCommand id (fun _ => none) 0 emptyDB (bytes "SET k v x ") =
        some (bytes "+OK\r\n", emptyDB.insert (bytes "k") ⟨bytes "v", 0⟩) ∧
      bytes "+OK\r\n" ≠ bytes "-ERR unknown command\r\n" ∧
      (emptyDB.insert (bytes "k") ⟨bytes "v", 0⟩) (bytes "k") ≠ emptyDB (bytes "k") :=
  ⟨by rfl, by decide, by decide⟩

/-- C9, amended: for every SET command with at least two argument tokens
(non-empty, without spaces) and not exactly four of them, so with 3 tokens or
with 5 or more, `processCommand` ignores the tokens after the second, replies
`+OK` and stores the second token under the first without expiry. -/
theorem C9_set_ignores_extra_tokens (U : Str → Str) (cfg : Config) (now : Int) (db : DB)
    (k v : Str) (more : List Str) (hk : isToken k) (hv : isToken v)
    (hm : ∀ t ∈ more, isToken t) (hlen : more.length ≠ 2) :
    processCommand U cfg now db (commandLine (bytes "SET" :: k :: v :: more)) =
      some (bytes "+OK\r\n", db.insert k ⟨v, 0⟩) := by
  have hr : ∀ t ∈ k :: v :: more, t ≠ [] ∧ 32 ∉ t := by
    intro t ht
    rcases List.mem_cons.mp ht with e | ht
    · exact e ▸ hk
    · rcases List.mem_cons.mp ht with e | ht
      · exact e ▸ hv
      · exact hm t ht
  rw [processCommand_SET_plain U cfg now db _ k v more (ToUpper_SET U) no_space_SET hr hlen,
    handleSetCommand_zero]

/-- C9, amended, at `SET foo bar EX 10 NX`, five argument tokens. -/
theorem C9_set_ignores_extra_tokens_witness :
    (isToken (bytes "foo") ∧ isToken (bytes "bar") ∧
      (∀ t ∈ [bytes "EX", bytes "10", bytes "NX"], isToken t) ∧
      [bytes "EX", bytes "10", bytes "NX"].length ≠ 2) ∧
    processCommand id (fun _ => none) 0 emptyDB
        (commandLine (bytes "SET" :: bytes "foo" :: bytes "bar" ::
          [bytes "EX", bytes "10", bytes "NX"])) =
      some (bytes "+OK\r\n", emptyDB.insert (bytes "foo") ⟨bytes "bar", 0⟩) :=
  ⟨⟨by decide, by decide, by decide, by decide⟩,
    C9_set_ignores_extra_tokens id (fun _ => none) 0 emptyDB (bytes "foo") (bytes "bar")
      [bytes "EX", bytes "10", bytes "NX"] (by decide) (by decide) (by decide) (by decide)⟩

/-- C10, as stated, fails: `SET k v PX -1` at clock 1000 is not rejected; the
reply is `+OK` and `k` is stored with the deadline 999. -/
theorem C10_counterexample :
    processCommand id (fun _ => none) 1000 emptyDB (bytes "SET k v PX -1 ") =
        some (bytes "+OK\r\n", emptyDB.insert (bytes "k") ⟨bytes "v", 999⟩) ∧
      bytes "+OK\r\n" ≠ bytes "-ERR unknown command\r\n" ∧
      (emptyDB.insert (bytes "k") ⟨bytes "v", 999⟩) (bytes "k") ≠ emptyDB (bytes "k") :=
  ⟨by rfl, by decide, by decide⟩

theorem Atoi_neg_out_of_range (n : Nat) (h : 9223372036854775808 < (n : Int)) :
    Atoi (45 :: natToDec n) = none := by
  have hp := parseDigits_natToDec n
  have h2 : ¬ (n : Int) ≤ 9223372036854775808 := by omega
  simp [Atoi, natToDec_ne_nil, hp, h2]

theorem Atoi_Itoa_below (n : Int) (h : n < minInt64) : Atoi (Itoa n) = none := by
  unfold minInt64 at h
  cases n with
  | ofNat m =>
    have : (0 : Int) ≤ Int.ofNat m := Int.ofNat_nonneg m
    omega
  | negSucc m =>
    have hm := Int.negSucc_eq m
    exact Atoi_neg_out_of_range (m + 1) (by omega)

/-- C10, amended: for every key `k`, value `v` (non-empty, without spaces) and
every negative integer `n`: when `n` fits `int64`, `SET k v PX n` is accepted,
the reply is `+OK` and `v` is stored under `k` with the deadline `now + n`
(wrapped to `int64`); only when `n` is below the `int64` range, where `Atoi`
fails, is the reply `-ERR unknown command\r\n` and the store unchanged. -/
theorem C10_negative_px_accepted (U : Str → Str) (cfg : Config) (now : Int) (db : DB)
    (k v : Str) (n : Int) (hk : isToken k) (hv : isToken v) (hneg : n < 0) :
    (minInt64 ≤ n →
      processCommand U cfg now db (commandLine [bytes "SET", k, v, bytes "PX", Itoa n]) =
        some (bytes "+OK\r\n", db.insert k ⟨v, wrap64 (now + n)⟩)) ∧
    (n < minInt64 →
      processCommand U cfg now db (commandLine [bytes "SET", k, v, bytes "PX", Itoa n]) =
        some (bytes "-ERR unknown command\r\n", db)) := by
  constructor
  · intro hmin
    have hmax : n ≤ maxInt64 := by unfold maxInt64; omega
    rw [set_px U cfg now db k v n hk hv hmin hmax,
      handleSetCommand_nonzero now db k v n (by omega)]
  · intro hlow
    have hr : ∀ u ∈ [k, v, bytes "PX", Itoa n], u ≠ [] ∧ 32 ∉ u := by
      intro u hu
      simp only [List.mem_cons, List.mem_singleton, List.not_mem_nil, or_false] at hu
      rcases hu with e | e | e | e
      · exact e ▸ hk
      · exact e ▸ hv
      · exact e ▸ isToken_PX
      · exact e ▸ isToken_Itoa n
    rw [processCommand_SET_four U cfg now db _ k v _ _ (ToUpper_SET U) no_space_SET hr,
      Atoi_Itoa_below n hlow]
    rfl

/-- C10, amended, at `SET foo bar PX -5` at clock 1000: accepted, with the
deadline 995. -/
theorem C10_negative_px_accepted_witness :
    (isToken (bytes "foo") ∧ isToken (bytes "bar") ∧ (-5 : Int) < 0 ∧ minInt64 ≤ -5) ∧
    processCommand id (fun _ => none) 1000 emptyDB
        (commandLine [bytes "SET", bytes "foo", bytes "bar", bytes "PX", Itoa (-5)]) =
      some (bytes "+OK\r\n", emptyDB.insert (bytes "foo") ⟨bytes "bar", wrap64 (1000 + -5)⟩) ∧
    wrap64 (1000 + -5) = 995 :=
  ⟨⟨by decide, by decide, by decide, by decide⟩,
    (C10_negative_px_accepted id (fun _ => none) 1000 emptyDB (bytes "foo") (bytes "bar") (-5)
      (by decide) (by decide) (by decide)).1 (by decide),
    by decide⟩

theorem Split_SP_eq (s : Str) : Split s SP = firstWord s :: restWords s := by
  induction s with
  | nil => rfl
  | cons c cs ih =>
    rw [Split_SP_cons]
    by_cases hc : c = 32
    · subst hc; simp [firstWord, restWords]
    · simp [hc, ih, consHead, firstWord, restWords, List.takeWhile_cons, List.dropWhile_cons]

theorem secondWord_eq (s : Str) : (Split s SP)[1]? = secondWord s := by
  rw [Split_SP_eq]
  unfold restWords secondWord
  cases h : s.dropWhile (fun c => c != 32) with
  | nil => simp
  | cons d t => simp [Split_SP_head]

theorem Split_SP_length (a : Str) : (Split a SP).length = 1 + a.count 32 := by
  induction a with
  | nil => rfl
  | cons c cs ih =>
    rw [Split_SP_cons]
    have hne := splitFrom_ne_nil SP cs 0
    by_cases hc : c = 32
    · subst hc; simp [ih]; omega
    · cases hsp : Split cs SP with
      | nil => exact absurd hsp hne
      | cons p ps =>
        rw [hsp] at ih
        have hc2 : ¬ (c == 32) = true := by simpa using hc
        simp [hc, consHead, List.count_cons, hc2] at ih ⊢
        omega

theorem Split_SP_one_none_iff (a : Str) : (Split a SP)[1]? = none ↔ 32 ∉ a := by
  rw [List.getElem?_eq_none_iff, Split_SP_length]
  rw [← List.count_eq_zero]
  omega

/-- The shape of what the loop of `parseCommand` builds: empty, or ending in a
space. -/
theorem parseLoop_shape : ∀ (l : List Str) (i : Nat) (command : Str),
    (command = [] ∨ command.getLast? = some 32) →
    (parseLoop i l command = [] ∨ (parseLoop i l command).getLast? = some 32)
  | [], _, command, h => by simpa [parseLoop] using h
  | arg :: rest, i, command, h => by
    rw [parseLoop]
    apply parseLoop_shape rest (i + 1)
    split
    · right; simp [SP, ← List.append_assoc]
    · exact h

theorem parseCommand_shape (buf s : Str) (h : parseCommand buf = some (s, none)) :
    s = [] ∨ s.getLast? = some 32 := by
  unfold parseCommand at h
  cases buf with
  | nil => simp at h
  | cons c0 tl =>
    simp only at h
    split at h
    · simp at h
    · split at h
      · simp at h
      · simp only [Option.some.injEq, Prod.mk.injEq, and_true] at h
        rw [← h]
        exact parseLoop_shape _ 0 [] (Or.inl rfl)

/-- Trimming the argument text of four tokens whose first and last are
non-empty and space-free gives the tokens joined by single spaces; the two
middle tokens may be empty. -/
theorem Trim_commandLine_four (k v o n : Str) (hk : isToken k) (hn : isToken n) :
    Trim (commandLine [k, v, o, n]) SP = Join [k, v, o, n] SP := by
  have hj : Join [k, v, o, n] SP = k ++ (SP ++ (v ++ (SP ++ (o ++ SP)))) ++ n := by
    simp [Join]
  have hhead : (Join [k, v, o, n] SP).head? ≠ some 32 := by
    rw [hj]
    cases k with
    | nil => exact absurd rfl hk.1
    | cons c k =>
      intro e
      apply hk.2
      simp at e
      simp [e]
  have hlast : (Join [k, v, o, n] SP).getLast? ≠ some 32 := by
    rw [hj, List.getLast?_append_of_ne_nil _ hn.1]
    intro e
    exact hn.2 (List.mem_of_getLast?_eq_some e)
  rw [commandLine_eq_Join [k, v, o, n] (by simp), Trim_append_SP, Trim_eq_self _ hhead hlast]

/-- The SET branch on a command line of four space-free argument tokens whose
first and last are non-empty. -/
theorem processCommand_SET_four_ends (U : Str → Str) (cfg : Config) (now : Int) (db : DB)
    (w k v o n : Str) (hU : ToUpper U w = bytes "SET") (hw : 32 ∉ w)
    (hk : isToken k) (hv : 32 ∉ v) (ho : 32 ∉ o) (hn : isToken n) :
    processCommand U cfg now db (commandLine [w, k, v, o, n]) =
      match Atoi n with
      | none => some (errUnknown, db)
      | some ms =>
        if ToUpper U o ≠ bytes "PX" then some (errUnknown, db)
        else some (bytes "+OK\r\n", handleSetCommand now db k v ms) := by
  have hr : ∀ u ∈ [k, v, o, n], 32 ∉ u := by
    intro u hu
    simp only [List.mem_cons, List.mem_singleton, List.not_mem_nil, or_false] at hu
    rcases hu with e | e | e | e
    · exact e ▸ hk.2
    · exact e ▸ hv
    · exact e ▸ ho
    · exact e ▸ hn.2
  have h1 := dispatch_words w [k, v, o, n] hw hr
  have h2 : Trim (Join ((Split (commandLine [w, k, v, o, n]) SP).drop 1) SP) SP =
      Join [k, v, o, n] SP := by
    rw [h1]
    simp only [List.drop_succ_cons, List.drop_zero]
    rw [Join_snoc_nil, Trim_commandLine_four k v o n hk hn]
  have h3 := Split_Join_SP [k, v, o, n] (by simp) hr
  unfold processCommand
  simp only [h2, h3]
  simp [h1, hU, bytes_PING, bytes_ECHO, bytes_SET]

/-- C11, as stated, fails: the array `[SET, k, v, PX, ""]` has four argument
tokens of which the last, the empty string, does not parse as an integer; it
decodes to `SET k v PX  `, the trailing spaces are trimmed, three tokens
remain, and the reply is `+OK` with `k` stored instead of the error with the
store unchanged. -/
theorem C11_counterexample :
    Atoi (bytes "") = none ∧
      parseCommand (formatRESPArray [bytes "SET", bytes "k", bytes "v", bytes "PX", bytes ""]) =
        some (bytes "SET k v PX  ", none) ∧
      processCommand id (fun _ => none) 1000 emptyDB (bytes "SET k v PX  ") =
        some (bytes "+OK\r\n", emptyDB.insert (bytes "k") ⟨bytes "v", 0⟩) ∧
      bytes "+OK\r\n" ≠ bytes "-ERR unknown command\r\n" ∧
      (emptyDB.insert (bytes "k") ⟨bytes "v", 0⟩) (bytes "k") ≠ emptyDB (bytes "k") :=
  ⟨by decide, by decide, by rfl, by decide, by decide⟩

/-- C11, amended: for every store and every SET command (name in any spelling
that upper-cases to `SET`) with exactly four argument tokens `k v o n`, none
of them containing a space and `k` and `n` non-empty, in which `o` does not
upper-case to `PX` or `n` is not accepted by `Atoi`, `processCommand` replies
exactly `-ERR unknown command\r\n` and the store is exactly what it was
before. -/
theorem C11_malformed_px_rejected (U : Str → Str) (cfg : Config) (now : Int) (db : DB)
    (w k v o n : Str) (hU : ToUpper U w = bytes "SET") (hw : 32 ∉ w)
    (hk : isToken k) (hv : 32 ∉ v) (ho : 32 ∉ o) (hn : isToken n)
    (hbad : ToUpper U o ≠ bytes "PX" ∨ Atoi n = none) :
    processCommand U cfg now db (commandLine [w, k, v, o, n]) =
      some (bytes "-ERR unknown command\r\n", db) := by
  rw [processCommand_SET_four_ends U cfg now db w k v o n hU hw hk hv ho hn]
  cases hA : Atoi n with
  | none => rfl
  | some ms =>
    rcases hbad with hb | hb
    · simp [hb, errUnknown]
    · rw [hA] at hb; exact absurd hb (by simp)

/-- C11, amended, at `set foo bar EX 10` on a store that already holds `foo`;
`set foo  PX ten`, with an empty value token, is rejected as well. -/
theorem C11_malformed_px_rejected_witness :
    (ToUpper id (bytes "set") = bytes "SET" ∧ 32 ∉ bytes "set" ∧ isToken (bytes "foo") ∧
      32 ∉ bytes "bar" ∧ 32 ∉ bytes "EX" ∧ isToken (bytes "10") ∧
      (ToUpper id (bytes "EX") ≠ bytes "PX" ∨ Atoi (bytes "10") = none)) ∧
    processCommand id (fun _ => none) 1000 (emptyDB.insert (bytes "foo") ⟨bytes "old", 0⟩)
        (commandLine [bytes "set", bytes "foo", bytes "bar", bytes "EX", bytes "10"]) =
      some (bytes "-ERR unknown command\r\n", emptyDB.insert (bytes "foo") ⟨bytes "old", 0⟩) ∧
    processCommand id (fun _ => none) 1000 emptyDB (bytes "set foo  PX ten ") =
      some (bytes "-ERR unknown command\r\n", emptyDB) :=
  ⟨⟨by decide, by decide, by decide, by decide, by decide, by decide, by decide⟩,
    C11_malformed_px_rejected id (fun _ => none) 1000
      (emptyDB.insert (bytes "foo") ⟨bytes "old", 0⟩)
      (bytes "set") (bytes "foo") (bytes "bar") (bytes "EX") (bytes "10")
      (by decide) (by decide) (by decide) (by decide) (by decide) (by decide) (by decide),
    by rfl⟩

/-- A non-empty buffer that does not start with `*` is answered with the error
`Invalid command` and the empty command. -/
theorem parseCommand_not_star (c : Nat) (tl : Str) (hc : c ≠ 42) :
    parseCommand (c :: tl) = some ([], some (bytes "Invalid command")) := by
  simp [parseCommand, hc]

/-- C12 fails on the code at the empty buffer: `commandString[0]` is evaluated
before any length check, so `parseCommand` panics there instead of returning
an error. -/
theorem C12_empty_buffer_panics : parseCommand [] = none := rfl

theorem Split_CRLF_length (s : Str) (h : CRLF <:+: s) : 2 ≤ (Split s CRLF).length := by
  induction s with
  | nil =>
    have := List.eq_nil_of_infix_nil h
    simp [CRLF] at this
  | cons c cs ih =>
    unfold Split at ih ⊢
    rw [splitFrom]
    by_cases hp : CRLF.isPrefixOf (c :: cs) = true
    · have hne := splitFrom_ne_nil CRLF cs (CRLF.length - 1)
      rw [if_pos hp]
      cases hs : splitFrom CRLF (CRLF.length - 1) cs with
      | nil => exact absurd hs hne
      | cons p ps => simp
    · rw [if_neg hp]
      have hnp : ¬ CRLF <+: c :: cs := fun hh => hp (List.isPrefixOf_iff_prefix.mpr hh)
      have hin : CRLF <:+: cs := by
        rcases List.infix_cons_iff.mp h with hh | hh
        · exact absurd hh hnp
        · exact hh
      have := ih hin
      cases hs : splitFrom CRLF 0 cs with
      | nil => rw [hs] at this; simp at this
      | cons p ps => rw [hs] at this; simpa [consHead] using this

/-- For every buffer that starts with `*` and contains a CRLF, whatever its
framing, `parseCommand` returns the nil error together with the command built
by its loop: of the CRLF-separated segments from the third on, every second
one, each followed by a space. -/
theorem parseCommand_accepts_any_framing (tl : Str) (h : CRLF <:+: 42 :: tl) :
    parseCommand (42 :: tl) =
      some (parseLoop 0 ((Split (42 :: tl) CRLF).drop 2) [], none) := by
  have hl := Split_CRLF_length _ h
  rw [parseCommand_star (42 :: tl) tl rfl, if_neg (by omega)]

/-- C13 fails on the code: the buffer `*1\r\nfoo\r\n`, where the length line of
the element is missing, is not rejected, `parseCommand` returns the command
` ` (one space) with the nil error; and on the buffer `*`, with no CRLF, the
slice `args[2:]` is out of range and `parseCommand` panics instead of
returning an error. -/
theorem C13_malformed_framing_accepted :
    parseCommand (bytes "*1\r\nfoo\r\n") = some (bytes " ", none) ∧
      parseCommand (bytes "*") = none := by
  decide

/-- C14: for every list of tokens none of which contains CRLF, `parseCommand`
applied to `formatRESPArray tokens` succeeds (nil error) and returns the tokens
in their original order, each followed by one space. -/
theorem C14_decoder_undoes_encoder (tokens : List Str) (h : ∀ t ∈ tokens, ¬ CRLF <:+: t) :
    parseCommand (formatRESPArray tokens) =
      some (tokens.flatMap (fun t => t ++ bytes " "), none) :=
  parseCommand_formatRESPArray tokens h

/-- C14 at `[SET, foo, bar]`: the encoding is
`*3\r\n$3\r\nSET\r\n$3\r\nfoo\r\n$3\r\nbar\r\n` and it decodes to
`SET foo bar `. -/
theorem C14_decoder_undoes_encoder_witness :
    (∀ t ∈ [bytes "SET", bytes "foo", bytes "bar"], ¬ CRLF <:+: t) ∧
    parseCommand (formatRESPArray [bytes "SET", bytes "foo", bytes "bar"]) =
      some ([bytes "SET", bytes "foo", bytes "bar"].flatMap (fun t => t ++ bytes " "), none) ∧
    formatRESPArray [bytes "SET", bytes "foo", bytes "bar"] =
      bytes "*3\r\n$3\r\nSET\r\n$3\r\nfoo\r\n$3\r\nbar\r\n" ∧
    [bytes "SET", bytes "foo", bytes "bar"].flatMap (fun t => t ++ bytes " ") =
      bytes "SET foo bar " :=
  ⟨by decide, C14_decoder_undoes_encoder [bytes "SET", bytes "foo", bytes "bar"] (by decide),
    by decide, by decide⟩

theorem restWords_congr (s1 s2 : Str)
    (h : s1.dropWhile (fun c => c != 32) = s2.dropWhile (fun c => c != 32)) :
    restWords s1 = restWords s2 := by
  unfold restWords
  rw [h]

/-- C15: for every store, clock reading and pair of command strings that have
the same text from the first space on and whose first words have the same
upper-case form (they differ only in letter case), `processCommand` gives the
same outcome for both: the same reply and the same resulting store. -/
theorem C15_case_insensitive_dispatch (U : Str → Str) (cfg : Config) (now : Int) (db : DB)
    (s1 s2 : Str) (hname : ToUpper U (firstWord s1) = ToUpper U (firstWord s2))
    (hrest : s1.dropWhile (fun c => c != 32) = s2.dropWhile (fun c => c != 32)) :
    processCommand U cfg now db s1 = processCommand U cfg now db s2 := by
  have hr := restWords_congr s1 s2 hrest
  unfold processCommand
  simp only [Split_SP_eq, List.getElem?_cons_zero, List.getElem?_cons_succ, List.drop_succ_cons,
    List.drop_zero, hname, hr]

/-- C15 at `ping`, `Ping` and `PING`: all three reply `+PONG\r\n`. -/
theorem C15_case_insensitive_dispatch_witness :
    (ToUpper id (firstWord (bytes "ping ")) = ToUpper id (firstWord (bytes "PING ")) ∧
      (bytes "ping ").dropWhile (fun c => c != 32) =
        (bytes "PING ").dropWhile (fun c => c != 32)) ∧
    processCommand id (fun _ => none) 0 emptyDB (bytes "ping ") =
      processCommand id (fun _ => none) 0 emptyDB (bytes "PING ") ∧
    (processCommand id (fun _ => none) 0 emptyDB (bytes "ping ")).map Prod.fst =
      some (bytes "+PONG\r\n") ∧
    (processCommand id (fun _ => none) 0 emptyDB (bytes "Ping ")).map Prod.fst =
      some (bytes "+PONG\r\n") ∧
    (processCommand id (fun _ => none) 0 emptyDB (bytes "PING ")).map Prod.fst =
      some (bytes "+PONG\r\n") :=
  ⟨⟨by decide, by decide⟩,
    C15_case_insensitive_dispatch id (fun _ => none) 0 emptyDB (bytes "ping ") (bytes "PING ")
      (by decide) (by decide),
    by decide, by decide, by decide⟩

/-- C16: for every command string whose first word upper-cases to `PING`,
whatever follows it, `processCommand` replies exactly `+PONG\r\n` and leaves
the store unchanged. -/
theorem C16_ping_ignores_arguments (U : Str → Str) (cfg : Config) (now : Int) (db : DB)
    (s : Str) (h : ToUpper U (firstWord s) = bytes "PING") :
    processCommand U cfg now db s = some (bytes "+PONG\r\n", db) := by
  unfold processCommand
  simp only [Split_SP_head]
  simp [h]

/-- C16 at `ping  hello  big world `. -/
theorem C16_ping_ignores_arguments_witness :
    ToUpper id (firstWord (bytes "ping  hello  big world ")) = bytes "PING" ∧
    processCommand id (fun _ => none) 0 emptyDB (bytes "ping  hello  big world ") =
      some (bytes "+PONG\r\n", emptyDB) :=
  ⟨by decide,
    C16_ping_ignores_arguments id (fun _ => none) 0 emptyDB (bytes "ping  hello  big world ")
      (by decide)⟩

theorem ToUpper_nil (U : Str → Str) : ToUpper U [] = [] := rfl

/-- A non-empty line that ends in a space has a second word. -/
theorem secondWord_isSome (s : Str) (hs : s.getLast? = some 32) :
    ∃ w, secondWord s = some w := by
  have hmem : (32 : Nat) ∈ s := List.mem_of_getLast?_eq_some hs
  unfold secondWord
  cases h : s.dropWhile (fun c => c != 32) with
  | nil =>
    have := List.dropWhile_eq_nil_iff.mp h 32 hmem
    simp at this
  | cons d t => exact ⟨_, rfl⟩

/-- The CONFIG branch with a second word that is not `GET`. -/
theorem processCommand_CONFIG_other (U : Str → Str) (cfg : Config) (now : Int) (db : DB)
    (s w : Str) (hname : ToUpper U (firstWord s) = bytes "CONFIG")
    (hw : secondWord s = some w) (hsub : ToUpper U w ≠ bytes "GET") :
    processCommand U cfg now db s = some (errUnknown, db) := by
  have h1 := secondWord_eq s
  rw [hw] at h1
  have hsub2 := hsub
  rw [bytes_GET] at hsub2
  unfold processCommand
  simp only [Split_SP_head, h1]
  simp [hname, hsub2, bytes_PING, bytes_ECHO, bytes_SET, bytes_GET, bytes_CONFIG]

/-- C17: for every command string `s` that `parseCommand` returns (with the nil
error) whose first word upper-cases to `CONFIG`: the line has a second word,
possibly the empty one when no subcommand token is present, and whenever that
word does not upper-case to `GET`, `processCommand` replies exactly
`-ERR unknown command\r\n` and leaves the store unchanged. -/
theorem C17_config_other_subcommand (U : Str → Str) (cfg : Config) (now : Int) (db : DB)
    (buf s : Str) (hdec : parseCommand buf = some (s, none))
    (hname : ToUpper U (firstWord s) = bytes "CONFIG") :
    ∃ w, secondWord s = some w ∧
      (ToUpper U w ≠ bytes "GET" →
        processCommand U cfg now db s = some (bytes "-ERR unknown command\r\n", db)) := by
  have hne : s ≠ [] := by
    intro e
    rw [e] at hname
    have h0 : ToUpper U (firstWord []) = [] := rfl
    rw [h0] at hname
    exact absurd hname (by decide)
  have hs : s.getLast? = some 32 := by
    rcases parseCommand_shape buf s hdec with h | h
    · exact absurd h hne
    · exact h
  obtain ⟨w, hw⟩ := secondWord_isSome s hs
  exact ⟨w, hw, fun hsub => processCommand_CONFIG_other U cfg now db s w hname hw hsub⟩

/-- C17 at the decoded arrays `[config, set, dir]`, with the subcommand `set`,
and `[CONFIG]`, with no subcommand token: both are answered with the error. -/
theorem C17_config_other_subcommand_witness :
    (parseCommand (formatRESPArray [bytes "CONFIG"]) = some (bytes "CONFIG ", none) ∧
      ToUpper id (firstWord (bytes "CONFIG ")) = bytes "CONFIG") ∧
    (∃ w, secondWord (bytes "CONFIG ") = some w ∧
      (ToUpper id w ≠ bytes "GET" →
        processCommand id (fun _ => none) 0 emptyDB (bytes "CONFIG ") =
          some (bytes "-ERR unknown command\r\n", emptyDB))) ∧
    secondWord (bytes "CONFIG ") = some [] ∧
    processCommand id (fun _ => none) 0 emptyDB (bytes "CONFIG ") =
      some (bytes "-ERR unknown command\r\n", emptyDB) ∧
    processCommand id (fun _ => none) 0 emptyDB (bytes "config set dir ") =
      some (bytes "-ERR unknown command\r\n", emptyDB) :=
  ⟨⟨by decide, by decide⟩,
    C17_config_other_subcommand id (fun _ => none) 0 emptyDB (formatRESPArray [bytes "CONFIG"])
      (bytes "CONFIG ") (by decide) (by decide),
    by decide, by rfl, by rfl⟩

theorem argsOf_tail (s : Str) : Trim (Join (Split s SP).tail SP) SP = argsOf s := by
  simp [argsOf]

/-- What a completed dispatch does to the store, by command name: the SET
branch leaves it alone or assigns the key `firstWord args`; the GET branch
leaves what `handleGetCommand` leaves; every other branch leaves it alone. -/
theorem store_effect (U : Str → Str) (cfg : Config) (now : Int) (db db' : DB) (s r : Str)
    (h : processCommand U cfg now db s = some (r, db')) :
    (ToUpper U (firstWord s) = bytes "SET" →
        db' = db ∨ ∃ v ms, db' = handleSetCommand now db (firstWord (argsOf s)) v ms) ∧
      (ToUpper U (firstWord s) = bytes "GET" →
        db' = (handleGetCommand now db (argsOf s)).2) ∧
      (ToUpper U (firstWord s) ≠ bytes "SET" → ToUpper U (firstWord s) ≠ bytes "GET" →
        db' = db) := by
  unfold processCommand at h
  simp only [Split_SP_head] at h
  by_cases h1 : ToUpper U (firstWord s) = bytes "PING"
  · simp [h1] at h
    simp [h1, bytes_PING, bytes_SET, bytes_GET, h.2]
  by_cases h2 : ToUpper U (firstWord s) = bytes "ECHO"
  · simp [h2, bytes_PING, bytes_ECHO] at h
    simp [h2, bytes_ECHO, bytes_SET, bytes_GET, h.2]
  by_cases h3 : ToUpper U (firstWord s) = bytes "SET"
  · simp [h3, bytes_PING, bytes_ECHO, bytes_SET] at h
    rw [argsOf_tail] at h
    have key : db' = db ∨ ∃ v ms, db' = handleSetCommand now db (firstWord (argsOf s)) v ms := by
      generalize Split (argsOf s) SP = kv at h
      repeat' split at h
      all_goals
        first
        | (simp at h; done)
        | (left; simp at h; exact h.2.symm)
        | (right; simp_all; done)
        | (right
           rename_i hk _
           simp at hk h
           exact ⟨_, _, by rw [hk]; exact h.2.symm⟩)
    refine ⟨fun _ => key, fun hg => ?_, fun hn => absurd h3 hn⟩
    rw [h3] at hg
    exact absurd hg (by decide)
  by_cases h4 : ToUpper U (firstWord s) = bytes "GET"
  · simp [h4, bytes_PING, bytes_ECHO, bytes_SET, bytes_GET] at h
    rw [argsOf_tail] at h
    have key : db' = (handleGetCommand now db (argsOf s)).2 := by
      split at h <;> simp at h <;> exact h.2.symm
    exact ⟨fun hs => absurd hs h3, fun _ => key, fun _ hn => absurd h4 hn⟩
  have key : db' = db := by
    by_cases h5 : ToUpper U (firstWord s) = bytes "CONFIG"
    · simp [h5, bytes_PING, bytes_ECHO, bytes_SET, bytes_GET, bytes_CONFIG] at h
      repeat' split at h
      all_goals
        first
        | (simp at h; done)
        | (simp at h; exact h.2.symm)
    · simp [h1, h2, h3, h4, h5] at h; exact h.2.symm
  exact ⟨fun hs => absurd hs h3, fun hg => absurd hg h4, fun _ _ => key⟩

theorem handleGetCommand_store_live (now : Int) (db : DB) (k : Str)
    (h : ¬ expiredAt now db k) : (handleGetCommand now db k).2 = db := by
  unfold handleGetCommand
  cases hk : db k with
  | none => rfl
  | some e =>
    have : ¬ (e.expiry ≠ 0 ∧ now > e.expiry) := fun hh => h ⟨e, hk, hh.1, hh.2⟩
    simp [this]

theorem handleGetCommand_store_expired (now : Int) (db : DB) (k : Str)
    (h : expiredAt now db k) : (handleGetCommand now db k).2 = db.erase k := by
  obtain ⟨e, hk, h0, hlt⟩ := h
  have : e.expiry ≠ 0 ∧ now > e.expiry := ⟨h0, hlt⟩
  simp [handleGetCommand, hk, this]

theorem handleSetCommand_other (now : Int) (db : DB) (k v : Str) (ms : Int) (k' : Str)
    (h : k' ≠ k) : handleSetCommand now db k v ms k' = db k' := by
  simp [handleSetCommand, DB.insert, h]

theorem DB.erase_other (db : DB) (k k' : Str) (h : k' ≠ k) : (db.erase k) k' = db k' := by
  simp [DB.erase, h]

/-- C18: for every store, clock reading and command on which `processCommand`
completes, the store afterwards differs from the store before in at most one
key.  A command whose name is neither SET nor GET (PING, ECHO, CONFIG, unknown)
leaves it identical; SET changes at most the entry of its key, the first word
of the argument text; GET of the argument text `k` leaves it identical when `k`
is absent or not past its deadline, and otherwise removes `k` and leaves the
entry of every other key unchanged. -/
theorem C18_dispatch_frame (U : Str → Str) (cfg : Config) (now : Int) (db db' : DB)
    (s r : Str) (h : processCommand U cfg now db s = some (r, db')) :
    (∃ k, ∀ k', k' ≠ k → db' k' = db k') ∧
      (ToUpper U (firstWord s) ≠ bytes "SET" → ToUpper U (firstWord s) ≠ bytes "GET" →
        db' = db) ∧
      (ToUpper U (firstWord s) = bytes "SET" →
        ∀ k', k' ≠ firstWord (argsOf s) → db' k' = db k') ∧
      (ToUpper U (firstWord s) = bytes "GET" →
        (¬ expiredAt now db (argsOf s) → db' = db) ∧
        (expiredAt now db (argsOf s) →
          db' (argsOf s) = none ∧ ∀ k', k' ≠ argsOf s → db' k' = db k')) := by
  obtain ⟨hset, hget, hother⟩ := store_effect U cfg now db db' s r h
  have fset : ToUpper U (firstWord s) = bytes "SET" →
      ∀ k', k' ≠ firstWord (argsOf s) → db' k' = db k' := by
    intro hc k' hk'
    rcases hset hc with e | ⟨v, ms, e⟩
    · rw [e]
    · rw [e, handleSetCommand_other now db _ v ms k' hk']
  have fget : ToUpper U (firstWord s) = bytes "GET" →
      (¬ expiredAt now db (argsOf s) → db' = db) ∧
      (expiredAt now db (argsOf s) →
        db' (argsOf s) = none ∧ ∀ k', k' ≠ argsOf s → db' k' = db k') := by
    intro hc
    have e := hget hc
    constructor
    · intro hl
      rw [e, handleGetCommand_store_live now db _ hl]
    · intro hx
      rw [e, handleGetCommand_store_expired now db _ hx]
      exact ⟨DB.erase_same db _, fun k' hk' => DB.erase_other db _ k' hk'⟩
  refine ⟨?_, hother, fset, fget⟩
  by_cases hs : ToUpper U (firstWord s) = bytes "SET"
  · exact ⟨_, fset hs⟩
  · by_cases hg : ToUpper U (firstWord s) = bytes "GET"
    · by_cases hx : expiredAt now db (argsOf s)
      · exact ⟨_, ((fget hg).2 hx).2⟩
      · exact ⟨[], fun k' _ => by rw [(fget hg).1 hx]⟩
    · exact ⟨[], fun k' _ => by rw [hother hs hg]⟩

/-- C18 at `GET foo` at clock 2000 on a store where `foo` has the deadline 1100
and `other` never expires: `foo` is removed, `other` is untouched. -/
theorem C18_dispatch_frame_witness :
    processCommand id (fun _ => none) 2000
        ((emptyDB.insert (bytes "other") ⟨bytes "x", 0⟩).insert (bytes "foo") ⟨bytes "bar", 1100⟩)
        (bytes "GET foo ") =
      some (bytes "$-1\r\n",
        (((emptyDB.insert (bytes "other") ⟨bytes "x", 0⟩).insert (bytes "foo")
          ⟨bytes "bar", 1100⟩).erase (bytes "foo"))) ∧
    (((emptyDB.insert (bytes "other") ⟨bytes "x", 0⟩).insert (bytes "foo")
        ⟨bytes "bar", 1100⟩).erase (bytes "foo")) (bytes "other") = some ⟨bytes "x", 0⟩ ∧
    ∃ k, ∀ k', k' ≠ k →
      (((emptyDB.insert (bytes "other") ⟨bytes "x", 0⟩).insert (bytes "foo")
        ⟨bytes "bar", 1100⟩).erase (bytes "foo")) k' =
      ((emptyDB.insert (bytes "other") ⟨bytes "x", 0⟩).insert (bytes "foo") ⟨bytes "bar", 1100⟩)
        k' :=
  ⟨by rfl, by decide,
    (C18_dispatch_frame id (fun _ => none) 2000
      ((emptyDB.insert (bytes "other") ⟨bytes "x", 0⟩).insert (bytes "foo") ⟨bytes "bar", 1100⟩)
      _ (bytes "GET foo ") (bytes "$-1\r\n") (by rfl)).1⟩

/-- On a line that ends in a space and has a non-empty second word, the third
word exists. -/
theorem third_word_exists (s w : Str) (hs : s.getLast? = some 32)
    (hw : secondWord s = some w) (hne : w ≠ []) : ∃ k, (Split s SP)[2]? = some k := by
  unfold secondWord at hw
  cases hd : s.dropWhile (fun c => c != 32) with
  | nil => rw [hd] at hw; simp at hw
  | cons d t =>
    rw [hd] at hw
    simp only [Option.some.injEq] at hw
    have ht : t ≠ [] := by
      intro e
      rw [e] at hw
      exact hne hw.symm
    have hsplit : s = s.takeWhile (fun c => c != 32) ++ d :: t := by
      rw [← hd, List.takeWhile_append_dropWhile]
    have hlast : t.getLast? = some 32 := by
      rw [hsplit] at hs
      have e : s.takeWhile (fun c => c != 32) ++ d :: t =
          (s.takeWhile (fun c => c != 32) ++ [d]) ++ t := by simp
      rw [e, List.getLast?_append_of_ne_nil _ ht] at hs
      exact hs
    have hmem : (32 : Nat) ∈ t := List.mem_of_getLast?_eq_some hlast
    have h2 : (Split s SP)[2]? = (Split t SP)[1]? := by
      rw [Split_SP_eq s]
      simp [restWords, hd]
    rw [h2]
    cases h1 : (Split t SP)[1]? with
    | none => exact absurd hmem ((Split_SP_one_none_iff t).mp h1)
    | some k => exact ⟨k, rfl⟩

theorem length_four_elems (kv : List Str) (h : kv.length = 4) :
    ∃ a b c d, kv = [a, b, c, d] := by
  match kv, h with
  | [a, b, c, d], _ => exact ⟨a, b, c, d, rfl⟩

/-- C20: for every command string that is empty or ends in a space (every
string `parseCommand` can return is of that shape), `processCommand` panics on
an out-of-range index exactly when the command name upper-cases to `SET` and
the space-trimmed argument text contains no space; on every other such string,
the CONFIG ones included, it completes. -/
theorem C20_index_safety (U : Str → Str) (cfg : Config) (now : Int) (db : DB) (s : Str)
    (hs : s = [] ∨ s.getLast? = some 32) :
    processCommand U cfg now db s = none ↔
      (ToUpper U (firstWord s) = bytes "SET" ∧ 32 ∉ argsOf s) := by
  unfold processCommand
  simp only [Split_SP_head]
  by_cases h1 : ToUpper U (firstWord s) = bytes "PING"
  · simp [h1, bytes_PING, bytes_SET]
  by_cases h2 : ToUpper U (firstWord s) = bytes "ECHO"
  · simp [h2, bytes_PING, bytes_ECHO, bytes_SET]
  by_cases h3 : ToUpper U (firstWord s) = bytes "SET"
  · simp [h3, bytes_PING, bytes_ECHO, bytes_SET]
    rw [argsOf_tail, ← Split_SP_one_none_iff]
    by_cases hl : (Split (argsOf s) SP).length = 4
    · obtain ⟨a, b, c, d, e⟩ := length_four_elems _ hl
      rw [e]
      simp
      cases Atoi d with
      | none => simp
      | some ms =>
        by_cases hp : ToUpper U c = bytes "PX" <;> simp [hp]
    · simp only [hl, if_false]
      cases h : (Split (argsOf s) SP)[1]? <;> simp
  by_cases h4 : ToUpper U (firstWord s) = bytes "GET"
  · simp [h4, bytes_PING, bytes_ECHO, bytes_SET, bytes_GET]
    split <;> simp
  by_cases h5 : ToUpper U (firstWord s) = bytes "CONFIG"
  · have hne : s ≠ [] := by
      intro e
      rw [e] at h5
      have h0 : ToUpper U (firstWord []) = [] := rfl
      rw [h0] at h5
      exact absurd h5 (by decide)
    have hlast : s.getLast? = some 32 := by
      rcases hs with e | e
      · exact absurd e hne
      · exact e
    obtain ⟨w, hw⟩ := secondWord_isSome s hlast
    have hw1 := secondWord_eq s
    rw [hw] at hw1
    simp [h5, hw1, bytes_PING, bytes_ECHO, bytes_SET, bytes_GET, bytes_CONFIG]
    by_cases hg : ToUpper U w = [71, 69, 84]
    · have hwne : w ≠ [] := by
        intro e
        rw [e] at hg
        have h0 : ToUpper U [] = [] := rfl
        rw [h0] at hg
        exact absurd hg (by decide)
      obtain ⟨k, hk⟩ := third_word_exists s w hlast hw hwne
      simp [hg, hk]
    · simp [hg]
  · simp [h1, h2, h3, h4, h5]

/-- C20 at `SET k `, one argument token: the access to the value token is out
of range; `CONFIG GET ` and `CONFIG ` complete. -/
theorem C20_index_safety_witness :
    (bytes "SET k " = [] ∨ (bytes "SET k ").getLast? = some 32) ∧
    (processCommand id (fun _ => none) 0 emptyDB (bytes "SET k ") = none ↔
      (ToUpper id (firstWord (bytes "SET k ")) = bytes "SET" ∧ 32 ∉ argsOf (bytes "SET k "))) ∧
    processCommand id (fun _ => none) 0 emptyDB (bytes "SET k ") = none ∧
    processCommand id (fun _ => none) 0 emptyDB (bytes "CONFIG GET ") =
      some (bytes "*2\r\n$0\r\n\r\n$0\r\n\r\n", emptyDB) ∧
    processCommand id (fun _ => none) 0 emptyDB (bytes "CONFIG ") =
      some (bytes "-ERR unknown command\r\n", emptyDB) :=
  ⟨by decide,
    C20_index_safety id (fun _ => none) 0 emptyDB (bytes "SET k ") (by decide),
    by rfl, by rfl, by rfl⟩

end RedisGo
